import Mathlib

/-
  Verification development for the skew tiling window manager.

  The Rust source is shallowly embedded: f64 coordinates are modelled as
  rationals (all layout and snap arithmetic in the source is exact real
  arithmetic on screen coordinates; no claim in scope depends on floating
  point rounding), `std::time::Instant` timestamps are modelled as natural
  numbers of milliseconds, and `HashMap`/`HashSet` state is modelled as
  association lists / `Finset`s / functions to `Option`.  Comparisons of the
  form `sqrt s > t` from the source are embedded square-free through
  `sqrtCmpGT`, which agrees with the source comparison for every
  nonnegative radicand.
-/

namespace Skew

/-- Rectangle type from src/lib.rs: x, y, width, height as f64, modelled on ℚ. -/
structure Rect where
  x : ℚ
  y : ℚ
  width : ℚ
  height : ℚ
deriving DecidableEq

/-- Window record from src/window_manager.rs (WindowId is a u32, modelled as ℕ). -/
structure Window where
  id : ℕ
  title : String
  owner : String
  owner_pid : ℤ
  rect : Rect
  is_minimized : Bool
  is_focused : Bool
  workspace_id : ℕ
deriving DecidableEq

/-- Decides whether sqrt s exceeds t without square roots: for s ≥ 0 this is
exactly the source comparison `s.sqrt() > t` (true whenever t < 0, and
otherwise equivalent to t^2 < s). -/
def sqrtCmpGT (s t : ℚ) : Bool :=
  decide (t < 0) || decide (t ^ 2 < s)

/-- Length of the overlap of the intervals [a, a+w] and [b, b+v], clamped at 0. -/
def interLen (a w b v : ℚ) : ℚ :=
  max 0 (min (a + w) (b + v) - max a b)

/-- Area of the intersection of two rectangles (zero when they do not overlap). -/
def interArea (r s : Rect) : ℚ :=
  interLen r.x r.width s.x s.width * interLen r.y r.height s.y s.height

/-! ## BSP tree (src/layout.rs, struct BSPNode) -/

/-- BSPNode from src/layout.rs: rect, split_ratio, is_horizontal, an optional
window id, and optional boxed left/right children. -/
inductive BSPNode where
  | mk (rect : Rect) (split_ratio : ℚ) (is_horizontal : Bool)
       (window_id : Option ℕ) (left : Option BSPNode) (right : Option BSPNode)

namespace BSPNode

/-- Accessor for the rect field. -/
def rect : BSPNode → Rect
  | .mk re _ _ _ _ _ => re

/-- BSPNode::new_leaf: a leaf with split_ratio 0.5 and is_horizontal true. -/
def newLeaf (wid : ℕ) (re : Rect) : BSPNode :=
  .mk re (1/2) true (some wid) none none

/-- Child rectangles of a split: horizontal splits left|right by width*ratio,
vertical splits top|bottom by height*ratio (BSPNode::update_child_rects). -/
def splitRect (re : Rect) (ratio : ℚ) (hz : Bool) : Rect × Rect :=
  if hz then
    let lw := re.width * ratio
    (⟨re.x, re.y, lw, re.height⟩, ⟨re.x + lw, re.y, re.width - lw, re.height⟩)
  else
    let lh := re.height * ratio
    (⟨re.x, re.y, re.width, lh⟩, ⟨re.x, re.y + lh, re.width, re.height - lh⟩)

/-- BSPNode::update_rect / update_child_rects: assign a rectangle to this node
and recursively reassign both children when both are present (the source
touches children only in that case). -/
def updateRect : Rect → BSPNode → BSPNode
  | re, .mk _ sr hz w (some lt) (some rt) =>
      let pr := splitRect re sr hz
      .mk re sr hz w (some (updateRect pr.1 lt)) (some (updateRect pr.2 rt))
  | re, .mk _ sr hz w l r => .mk re sr hz w l r

/-- BSPNode::insert_window_with_depth: at an occupied leaf, convert it into a
container whose axis alternates with depth (even depth splits horizontally),
children (existing on left, new on right) are fresh leaves whose rects are then
assigned via update_child_rects; at an empty leaf, store the id; otherwise
descend into the right child if present, else the left. -/
def insertWindow (wid : ℕ) (ratio : ℚ) : BSPNode → ℕ → BSPNode
  | .mk re sr hz w none none, depth =>
      match w with
      | some existing =>
          updateRect re (.mk re ratio (depth % 2 == 0) none
            (some (newLeaf existing ⟨0, 0, 0, 0⟩))
            (some (newLeaf wid ⟨0, 0, 0, 0⟩)))
      | none => .mk re sr hz (some wid) none none
  | .mk re sr hz w l (some rt), depth =>
      .mk re sr hz w l (some (insertWindow wid ratio rt (depth + 1)))
  | .mk re sr hz w (some lt) none, depth =>
      .mk re sr hz w (some (insertWindow wid ratio lt (depth + 1))) none

/-- BSPNode::count_windows: a leaf counts its own id, an inner node counts only
its children. -/
def countWindows : BSPNode → ℕ
  | .mk _ _ _ w none none => if w.isSome then 1 else 0
  | .mk _ _ _ _ (some lt) (some rt) => countWindows lt + countWindows rt
  | .mk _ _ _ _ (some lt) none => countWindows lt
  | .mk _ _ _ _ none (some rt) => countWindows rt

/-- BSPNode::contains_window: a leaf compares its own id, an inner node asks
its children only. -/
def containsWindow : BSPNode → ℕ → Bool
  | .mk _ _ _ w none none, wid => w == some wid
  | .mk _ _ _ _ (some lt) (some rt), wid => containsWindow lt wid || containsWindow rt wid
  | .mk _ _ _ _ (some lt) none, wid => containsWindow lt wid
  | .mk _ _ _ _ none (some rt), wid => containsWindow rt wid

/-- LayoutManager::collect_all_windows_static: every window id stored anywhere
in the tree, own id first, then left subtree, then right subtree. -/
def treeIds : BSPNode → List ℕ
  | .mk _ _ _ w none none => w.toList
  | .mk _ _ _ w (some lt) (some rt) => w.toList ++ (treeIds lt ++ treeIds rt)
  | .mk _ _ _ w (some lt) none => w.toList ++ (treeIds lt ++ [])
  | .mk _ _ _ w none (some rt) => w.toList ++ ([] ++ treeIds rt)

/-- BSPNode::collapse_if_needed: drop both children if both are empty, else
promote the surviving child in place of this node. -/
def collapseIfNeeded : BSPNode → BSPNode
  | .mk re sr hz w l r =>
      let leftEmpty : Bool := match l with
        | some lt => countWindows lt == 0
        | none => true
      let rightEmpty : Bool := match r with
        | some rt => countWindows rt == 0
        | none => true
      if leftEmpty && rightEmpty then .mk re sr hz none none none
      else if leftEmpty then
        match r with
        | some rt => rt
        | none => .mk re sr hz w l r
      else if rightEmpty then
        match l with
        | some lt => lt
        | none => .mk re sr hz w l r
      else .mk re sr hz w l r

/-- BSPNode::remove_window: clear a matching leaf; in an inner node remove from
both children and collapse when something was removed.  Returns the new tree
and the removed flag (the source mutates in place and returns the flag). -/
def removeWindow : BSPNode → ℕ → BSPNode × Bool
  | .mk re sr hz w none none, wid =>
      if w = some wid then (.mk re sr hz none none none, true)
      else (.mk re sr hz w none none, false)
  | .mk re sr hz w (some lt) (some rt), wid =>
      let ql := removeWindow lt wid
      let qr := removeWindow rt wid
      let n := BSPNode.mk re sr hz w (some ql.1) (some qr.1)
      if ql.2 || qr.2 then (collapseIfNeeded n, true) else (n, false)
  | .mk re sr hz w (some lt) none, wid =>
      let ql := removeWindow lt wid
      let n := BSPNode.mk re sr hz w (some ql.1) none
      if ql.2 then (collapseIfNeeded n, true) else (n, false)
  | .mk re sr hz w none (some rt), wid =>
      let qr := removeWindow rt wid
      let n := BSPNode.mk re sr hz w none (some qr.1)
      if qr.2 then (collapseIfNeeded n, true) else (n, false)

/-- BSPNode::collect_window_rects: a node holding a window id emits its rect
inset by gap/2 on every side; otherwise it concatenates its children's output. -/
def collectWindowRects (gap : ℚ) : BSPNode → List (ℕ × Rect)
  | .mk re _ _ (some wid) _ _ =>
      [(wid, ⟨re.x + gap / 2, re.y + gap / 2, re.width - gap, re.height - gap⟩)]
  | .mk _ _ _ none (some lt) (some rt) =>
      collectWindowRects gap lt ++ collectWindowRects gap rt
  | .mk _ _ _ none (some lt) none => collectWindowRects gap lt ++ []
  | .mk _ _ _ none none (some rt) => [] ++ collectWindowRects gap rt
  | .mk _ _ _ none none none => []

/-- Structural sanity of a tree as produced by the source operations: a node
holding a window id has no children. -/
def wfb : BSPNode → Bool
  | .mk _ _ _ _ none none => true
  | .mk _ _ _ w (some lt) (some rt) => !w.isSome && (wfb lt && wfb rt)
  | .mk _ _ _ w (some lt) none => !w.isSome && wfb lt
  | .mk _ _ _ w none (some rt) => !w.isSome && wfb rt

/-- Every node has either no child or both children (true of every tree the
source operations construct). -/
def biform : BSPNode → Bool
  | .mk _ _ _ _ none none => true
  | .mk _ _ _ _ (some lt) (some rt) => biform lt && biform rt
  | .mk _ _ _ _ (some _) none => false
  | .mk _ _ _ _ none (some _) => false

/-- Every split_ratio in the tree lies in [0, 1]. -/
def ratiosBounded : BSPNode → Bool
  | .mk _ sr _ _ none none => decide (0 ≤ sr) && decide (sr ≤ 1)
  | .mk _ sr _ _ (some lt) (some rt) =>
      (decide (0 ≤ sr) && decide (sr ≤ 1)) && (ratiosBounded lt && ratiosBounded rt)
  | .mk _ sr _ _ (some lt) none => (decide (0 ≤ sr) && decide (sr ≤ 1)) && ratiosBounded lt
  | .mk _ sr _ _ none (some rt) => (decide (0 ≤ sr) && decide (sr ≤ 1)) && ratiosBounded rt

/-- Both children of every inner node carry exactly the rectangles dictated by
the parent's rect, ratio and axis (the state update_rect establishes). -/
def consistent : BSPNode → Bool
  | .mk _ _ _ _ none none => true
  | .mk re sr hz _ (some lt) (some rt) =>
      (lt.rect == (splitRect re sr hz).1 && rt.rect == (splitRect re sr hz).2)
        && (consistent lt && consistent rt)
  | .mk _ _ _ _ (some lt) none => consistent lt
  | .mk _ _ _ _ none (some rt) => consistent rt

end BSPNode

/-! ## Layout manager (src/layout.rs, LayoutManager) -/

/-- LayoutType from src/layout.rs. -/
inductive LayoutType where
  | bsp | stack | float | grid | spiral | column | monocle
deriving DecidableEq

/-- LayoutManager state: the active layout, the optional BSP root, and the
configured split ratio. -/
structure LayoutManager where
  current_layout : LayoutType
  bsp_root : Option BSPNode
  split_ratio : ℚ

namespace LayoutManager

/-- LayoutManager::add_window: in BSP mode insert into the existing tree and
re-assign rects from the screen, or seed the tree with a fresh leaf. -/
def addWindow (mgr : LayoutManager) (wid : ℕ) (screen : Rect) : LayoutManager :=
  if mgr.current_layout = .bsp then
    match mgr.bsp_root with
    | some root =>
        let t := BSPNode.updateRect screen (BSPNode.insertWindow wid mgr.split_ratio root 0)
        { mgr with bsp_root := some t }
    | none => { mgr with bsp_root := some (BSPNode.newLeaf wid screen) }
  else mgr

/-- LayoutManager::compute_stack_layout: one master column of width
screen.width * split_ratio, the rest stacked vertically on the right. -/
def computeStackLayout (ratio : ℚ) (windows : List Window) (screen : Rect) (gap : ℚ) :
    List (ℕ × Rect) :=
  match windows with
  | [] => []
  | [w] =>
      [(w.id, ⟨screen.x + gap, screen.y + gap,
               screen.width - 2 * gap, screen.height - 2 * gap⟩)]
  | w0 :: rest =>
      let masterWidth := screen.width * ratio
      let stackWidth := screen.width - masterWidth
      let stackHeight := screen.height / (rest.length : ℚ)
      let masterRect : Rect :=
        ⟨screen.x + gap / 2, screen.y + gap / 2,
         masterWidth - gap, screen.height - gap⟩
      (w0.id, masterRect) ::
        rest.enum.map (fun p =>
          (p.2.id, (⟨screen.x + masterWidth + gap / 2,
                     screen.y + (p.1 : ℚ) * stackHeight + gap / 2,
                     stackWidth - gap, stackHeight - gap⟩ : Rect)))

/-- LayoutManager::compute_float_layout: identity on the windows' own rects. -/
def computeFloatLayout (windows : List Window) : List (ℕ × Rect) :=
  windows.map (fun w => (w.id, w.rect))

/-- Ceiling of the real square root of a natural number, the value of
`(n as f64).sqrt().ceil() as usize` for the window counts in range. -/
def natCeilSqrt (n : ℕ) : ℕ :=
  if Nat.sqrt n * Nat.sqrt n = n then Nat.sqrt n else Nat.sqrt n + 1

/-- LayoutManager::compute_grid_layout: ceil(sqrt n) columns, ceil(n/cols)
rows, uniform cells separated by the gap. -/
def computeGridLayout (windows : List Window) (screen : Rect) (gap : ℚ) :
    List (ℕ × Rect) :=
  match windows with
  | [] => []
  | _ =>
      let n := windows.length
      let cols := natCeilSqrt n
      let rows := (n + cols - 1) / cols
      let cellWidth := (screen.width - gap * ((cols : ℚ) + 1)) / (cols : ℚ)
      let cellHeight := (screen.height - gap * ((rows : ℚ) + 1)) / (rows : ℚ)
      windows.enum.map (fun p =>
        let row := p.1 / cols
        let col := p.1 % cols
        (p.2.id, (⟨screen.x + gap + (col : ℚ) * (cellWidth + gap),
                   screen.y + gap + (row : ℚ) * (cellHeight + gap),
                   cellWidth, cellHeight⟩ : Rect)))

/-- LayoutManager::compute_spiral_layout: first window takes the left portion
of width split_ratio, the rest are stacked in the right column. -/
def computeSpiralLayout (ratio : ℚ) (windows : List Window) (screen : Rect) (gap : ℚ) :
    List (ℕ × Rect) :=
  match windows with
  | [] => []
  | [w] =>
      [(w.id, ⟨screen.x + gap, screen.y + gap,
               screen.width - 2 * gap, screen.height - 2 * gap⟩)]
  | w0 :: rest =>
      let mainRect : Rect :=
        ⟨screen.x + gap / 2, screen.y + gap / 2,
         screen.width * ratio - gap, screen.height - gap⟩
      let sideWidth := screen.width * (1 - ratio)
      let sideHeight := screen.height / (rest.length : ℚ)
      (w0.id, mainRect) ::
        rest.enum.map (fun p =>
          (p.2.id, (⟨screen.x + screen.width * ratio + gap / 2,
                     screen.y + (p.1 : ℚ) * sideHeight + gap / 2,
                     sideWidth - gap, sideHeight - gap⟩ : Rect)))

/-- LayoutManager::compute_column_layout: equal-width full-height columns. -/
def computeColumnLayout (windows : List Window) (screen : Rect) (gap : ℚ) :
    List (ℕ × Rect) :=
  match windows with
  | [] => []
  | _ =>
      let n := windows.length
      let windowWidth := (screen.width - gap * ((n : ℚ) + 1)) / (n : ℚ)
      windows.enum.map (fun p =>
        (p.2.id, (⟨screen.x + gap + (p.1 : ℚ) * (windowWidth + gap),
                   screen.y + gap,
                   windowWidth, screen.height - 2 * gap⟩ : Rect)))

/-- LayoutManager::compute_monocle_layout: every window is assigned the same
rectangle, the screen inset by the gap on all four sides. -/
def computeMonocleLayout (windows : List Window) (screen : Rect) (gap : ℚ) :
    List (ℕ × Rect) :=
  match windows with
  | [] => []
  | _ =>
      let fullRect : Rect :=
        ⟨screen.x + gap, screen.y + gap,
         screen.width - 2 * gap, screen.height - 2 * gap⟩
      windows.map (fun w => (w.id, fullRect))

/-- Removal phase of the BSP sync: every id collected from the tree that is
not among the requested ids is removed. -/
def bspSyncRemove (ids : List ℕ) (root : BSPNode) : BSPNode :=
  (BSPNode.treeIds root).foldl
    (fun t wid => if wid ∈ ids then t else (BSPNode.removeWindow t wid).1) root

/-- Insertion phase of the BSP sync: every requested window not yet contained
in the tree is inserted. -/
def bspSyncInsert (ratio : ℚ) (windows : List Window) (root : BSPNode) : BSPNode :=
  windows.foldl
    (fun t w => if BSPNode.containsWindow t w.id then t else BSPNode.insertWindow w.id ratio t 0)
    root

/-- Synced BSP root of LayoutManager::compute_bsp_layout for a non-empty
window list: remove stale ids, insert new ones and reassign rects from the
screen; when no tree exists or the synced tree is empty, build a fresh tree
seeded with the first window. -/
def bspRoot2 (mgr : LayoutManager) (w0 : Window) (rest : List Window) (screen : Rect) :
    BSPNode :=
  match mgr.bsp_root with
  | some root =>
      if BSPNode.countWindows (BSPNode.updateRect screen
          (bspSyncInsert mgr.split_ratio (w0 :: rest)
            (bspSyncRemove ((w0 :: rest).map Window.id) root))) = 0 then
        rest.foldl (fun t w => BSPNode.insertWindow w.id mgr.split_ratio t 0)
          (BSPNode.newLeaf w0.id screen)
      else
        BSPNode.updateRect screen
          (bspSyncInsert mgr.split_ratio (w0 :: rest)
            (bspSyncRemove ((w0 :: rest).map Window.id) root))
  | none =>
      rest.foldl (fun t w => BSPNode.insertWindow w.id mgr.split_ratio t 0)
        (BSPNode.newLeaf w0.id screen)

/-- LayoutManager::compute_bsp_layout: sync the tree with the requested window
set (bspRoot2), store it, and collect the leaf rectangles inset by gap/2. -/
def computeBspLayout (mgr : LayoutManager) (windows : List Window) (screen : Rect) (gap : ℚ) :
    LayoutManager × List (ℕ × Rect) :=
  match windows with
  | [] => ({ mgr with bsp_root := none }, [])
  | w0 :: rest =>
      ({ mgr with bsp_root := some (bspRoot2 mgr w0 rest screen) },
       BSPNode.collectWindowRects gap (bspRoot2 mgr w0 rest screen))

/-- LayoutManager::compute_layout: dispatch on the current layout type.  The
manager is returned alongside the mapping because the BSP branch mutates the
tree state. -/
def computeLayout (mgr : LayoutManager) (windows : List Window) (screen : Rect) (gap : ℚ) :
    LayoutManager × List (ℕ × Rect) :=
  match mgr.current_layout with
  | .bsp => computeBspLayout mgr windows screen gap
  | .stack => (mgr, computeStackLayout mgr.split_ratio windows screen gap)
  | .float => (mgr, computeFloatLayout windows)
  | .grid => (mgr, computeGridLayout windows screen gap)
  | .spiral => (mgr, computeSpiralLayout mgr.split_ratio windows screen gap)
  | .column => (mgr, computeColumnLayout windows screen gap)
  | .monocle => (mgr, computeMonocleLayout windows screen gap)

end LayoutManager

/-! ## Snap engine (src/snap.rs) -/

/-- SnapRegion from src/snap.rs. -/
inductive SnapRegion where
  | center | north | south | east | west
  | northEast | northWest | southEast | southWest
deriving DecidableEq

/-- SnapZone: a trigger region together with its snap rectangle. -/
structure SnapZone where
  region : SnapRegion
  bounds : Rect
  snap_rect : Rect
deriving DecidableEq

/-- DragResult from src/snap.rs. -/
inductive DragResult where
  | snapToZone (r : Rect)
  | swapWithWindow (wid : ℕ)
  | returnToOriginal (r : Rect)
  | noAction
deriving DecidableEq

/-- WindowDragState from src/snap.rs; drag_start_time is an Instant, modelled
as a millisecond timestamp. -/
structure WindowDragState where
  window_id : ℕ
  initial_rect : Rect
  is_dragging : Bool
  drag_start_time : ℕ
deriving DecidableEq

/-- SnapManager state from src/snap.rs; the drag-state HashMap is modelled as
a function into Option. -/
structure SnapManager where
  screen_rect : Rect
  snap_zones : List SnapZone
  snap_threshold : ℚ
  window_drag_states : ℕ → Option WindowDragState

namespace SnapManager

/-- SnapManager::create_absolute_zone_rect: each component of the zone config
is treated as a fraction of the screen when it is ≤ 1 and as an absolute
offset otherwise. -/
def createAbsoluteZoneRect (screen : Rect) (cfg : ℚ × ℚ × ℚ × ℚ) : Rect :=
  let xc := cfg.1
  let yc := cfg.2.1
  let wc := cfg.2.2.1
  let hc := cfg.2.2.2
  ⟨(if xc ≤ 1 then screen.x + screen.width * xc else screen.x + xc),
   (if yc ≤ 1 then screen.y + screen.height * yc else screen.y + yc),
   (if wc ≤ 1 then screen.width * wc else wc),
   (if hc ≤ 1 then screen.height * hc else hc)⟩

/-- SnapManager::update_snap_zones: the nine zones (center, four edges with
150 px bands, four 100 px corner squares) with an 8 px margin on the snap
rectangles, in source order. -/
def updateSnapZones (screen : Rect) : List SnapZone :=
  let edgeZoneWidth : ℚ := 150
  let cornerSize : ℚ := 100
  let margin : ℚ := 8
  let mk := fun (reg : SnapRegion) (b s : ℚ × ℚ × ℚ × ℚ) =>
    SnapZone.mk reg (createAbsoluteZoneRect screen b) (createAbsoluteZoneRect screen s)
  [ mk .center (1/5, 1/5, 3/5, 3/5) (1/4, 1/4, 1/2, 1/2),
    mk .north
      (cornerSize, 0, screen.width - 2 * cornerSize, edgeZoneWidth)
      (margin, margin, screen.width - 2 * margin, screen.height * (1/2) - margin),
    mk .south
      (cornerSize, screen.height - edgeZoneWidth, screen.width - 2 * cornerSize, edgeZoneWidth)
      (margin, screen.height * (1/2), screen.width - 2 * margin, screen.height * (1/2) - margin),
    mk .west
      (0, cornerSize, edgeZoneWidth, screen.height - 2 * cornerSize)
      (margin, margin, screen.width * (1/2) - margin, screen.height - 2 * margin),
    mk .east
      (screen.width - edgeZoneWidth, cornerSize, edgeZoneWidth, screen.height - 2 * cornerSize)
      (screen.width * (1/2), margin, screen.width * (1/2) - margin, screen.height - 2 * margin),
    mk .northWest
      (0, 0, cornerSize, cornerSize)
      (margin, margin, screen.width * (1/2) - margin, screen.height * (1/2) - margin),
    mk .northEast
      (screen.width - cornerSize, 0, cornerSize, cornerSize)
      (screen.width * (1/2), margin, screen.width * (1/2) - margin, screen.height * (1/2) - margin),
    mk .southWest
      (0, screen.height - cornerSize, cornerSize, cornerSize)
      (margin, screen.height * (1/2), screen.width * (1/2) - margin, screen.height * (1/2) - margin),
    mk .southEast
      (screen.width - cornerSize, screen.height - cornerSize, cornerSize, cornerSize)
      (screen.width * (1/2), screen.height * (1/2),
       screen.width * (1/2) - margin, screen.height * (1/2) - margin) ]

/-- SnapManager::new with the given screen rect and threshold. -/
def new (screen : Rect) (threshold : ℚ) : SnapManager :=
  { screen_rect := screen
    snap_zones := updateSnapZones screen
    snap_threshold := threshold
    window_drag_states := fun _ => none }

/-- SnapManager::point_in_rect: closed containment on all four sides. -/
def pointInRect (x y : ℚ) (r : Rect) : Bool :=
  decide (r.x ≤ x) && decide (x ≤ r.x + r.width)
    && decide (r.y ≤ y) && decide (y ≤ r.y + r.height)

/-- Corner regions, checked first by the zone lookups. -/
def isCornerRegion : SnapRegion → Bool
  | .northWest | .northEast | .southWest | .southEast => true
  | _ => false

/-- Edge regions, checked second by the zone lookups. -/
def isEdgeRegion : SnapRegion → Bool
  | .north | .south | .east | .west => true
  | _ => false

/-- SnapManager::find_zone_at_point: first matching corner zone, then first
matching edge zone, then the center zone. -/
def findZoneAtPoint (m : SnapManager) (x y : ℚ) : Option SnapRegion :=
  match m.snap_zones.find? (fun z => isCornerRegion z.region && pointInRect x y z.bounds) with
  | some z => some z.region
  | none =>
    match m.snap_zones.find? (fun z => isEdgeRegion z.region && pointInRect x y z.bounds) with
    | some z => some z.region
    | none =>
      match m.snap_zones.find? (fun z => z.region == .center && pointInRect x y z.bounds) with
      | some z => some z.region
      | none => none

/-- SnapManager::find_snap_target: like findZoneAtPoint on the window's
center, but returning the matched zone's snap rectangle. -/
def findSnapTarget (m : SnapManager) (windowRect : Rect) : Option Rect :=
  let cx := windowRect.x + windowRect.width / 2
  let cy := windowRect.y + windowRect.height / 2
  match m.snap_zones.find? (fun z => isCornerRegion z.region && pointInRect cx cy z.bounds) with
  | some z => some z.snap_rect
  | none =>
    match m.snap_zones.find? (fun z => isEdgeRegion z.region && pointInRect cx cy z.bounds) with
    | some z => some z.snap_rect
    | none =>
      match m.snap_zones.find? (fun z => z.region == .center && pointInRect cx cy z.bounds) with
      | some z => some z.snap_rect
      | none => none

/-- SnapManager::find_window_under_drag: the first listed window, other than
the dragged one, whose rectangle contains the dragged window's center. -/
def findWindowUnderDrag (draggedId : ℕ) (draggedRect : Rect) (allWindows : List Window) :
    Option ℕ :=
  let cx := draggedRect.x + draggedRect.width / 2
  let cy := draggedRect.y + draggedRect.height / 2
  (allWindows.find? (fun w => w.id ≠ draggedId && pointInRect cx cy w.rect)).map Window.id

/-- SnapManager::calculate_drag_distance squared: the squared Euclidean
distance between the two origins (the source takes the square root and only
ever compares it, so the square is kept instead). -/
def dragDistanceSq (initial finalRect : Rect) : ℚ :=
  (finalRect.x - initial.x) ^ 2 + (finalRect.y - initial.y) ^ 2

/-- SnapManager::start_window_drag at a given millisecond timestamp. -/
def startWindowDrag (m : SnapManager) (wid : ℕ) (currentRect : Rect) (now : ℕ) : SnapManager :=
  { m with window_drag_states := fun x =>
      if x = wid then some ⟨wid, currentRect, true, now⟩ else m.window_drag_states x }

/-- SnapManager::clear_drag_state. -/
def clearDragState (m : SnapManager) (wid : ℕ) : SnapManager :=
  { m with window_drag_states := fun x =>
      if x = wid then none else m.window_drag_states x }

/-- SnapManager::end_window_drag at millisecond time `now`: with no drag state
the result is NoAction; a drag of at most 100 ms or of distance at most the
threshold is returned to its initial rect; otherwise the zone under the final
center decides between swap (center zone), snap (edge or corner zone, unless
the final rect is already within 10 px of the snap rect in every component)
and restore. -/
def endWindowDrag (m : SnapManager) (now : ℕ) (wid : ℕ) (finalRect : Rect)
    (allWindows : List Window) : DragResult × SnapManager :=
  match m.window_drag_states wid with
  | none => (.noAction, m)
  | some ds =>
      let m2 := clearDragState m wid
      let durationMs := now - ds.drag_start_time
      let distSq := dragDistanceSq ds.initial_rect finalRect
      if 100 < durationMs ∧ sqrtCmpGT distSq m.snap_threshold then
        let cx := finalRect.x + finalRect.width / 2
        let cy := finalRect.y + finalRect.height / 2
        match findZoneAtPoint m cx cy with
        | some .center =>
            match findWindowUnderDrag wid finalRect allWindows with
            | some target => (.swapWithWindow target, m2)
            | none => (.returnToOriginal ds.initial_rect, m2)
        | some _ =>
            match findSnapTarget m finalRect with
            | some snapRect =>
                if 10 < |snapRect.x - finalRect.x| ∨ 10 < |snapRect.y - finalRect.y|
                    ∨ 10 < |snapRect.width - finalRect.width|
                    ∨ 10 < |snapRect.height - finalRect.height| then
                  (.snapToZone snapRect, m2)
                else (.returnToOriginal ds.initial_rect, m2)
            | none => (.returnToOriginal ds.initial_rect, m2)
        | none => (.returnToOriginal ds.initial_rect, m2)
      else (.returnToOriginal ds.initial_rect, m2)

end SnapManager

/-! ## Reconciliation engine (src/window_manager.rs, WindowManager) -/

/-- Direction from src/hotkeys.rs. -/
inductive Direction where
  | left | right | up | down
deriving DecidableEq

/-- The WindowManager state relevant to event classification: the world model
(HashMap modelled as a list in iteration order), the stored workspace, the
programmatically_moving and user_dragging_windows sets, the previous-position
map and the snap manager. -/
structure EngineState where
  windows : List Window
  current_workspace : ℕ
  programmatically_moving : Finset ℕ
  user_dragging_windows : Finset ℕ
  previous_window_positions : ℕ → Option Rect
  snap : SnapManager

namespace EngineState

/-- Update the rect of the window stored under an id (HashMap::get_mut). -/
def setWindowRect (ws : List Window) (wid : ℕ) (r : Rect) : List Window :=
  ws.map (fun w => if w.id = wid then { w with rect := r } else w)

/-- Record a previous position (HashMap::insert). -/
def setPrev (f : ℕ → Option Rect) (wid : ℕ) (r : Rect) : ℕ → Option Rect :=
  fun x => if x = wid then some r else f x

/-- WindowManager::get_focused_window_id joined with the windows lookup: the
first stored window with is_focused set. -/
def focusedWindow (s : EngineState) : Option Window :=
  s.windows.find? (fun w => w.is_focused)

/-- Fold step of Rust's Iterator::max_by_key: keep the element with the
larger key, the later one on ties. -/
def maxByKeyStep (key : α → ℕ) (acc : Option α) (x : α) : Option α :=
  match acc with
  | none => some x
  | some b => if key b ≤ key x then some x else some b

/-- Rust's Iterator::max_by_key on a list: the last element attaining the
maximal key, or none for an empty list. -/
def maxByKey (key : α → ℕ) (l : List α) : Option α :=
  l.foldl (maxByKeyStep key) none

/-- Count of non-minimized stored windows on a given workspace. -/
def workspaceCount (visible : List Window) (ws : ℕ) : ℕ :=
  (visible.filter (fun w => w.workspace_id = ws)).length

/-- WindowManager::get_effective_current_workspace: the focused window's
workspace if any; else the workspace with the greatest count of non-minimized
windows; else the stored current_workspace. -/
def getEffectiveCurrentWorkspace (s : EngineState) : ℕ :=
  match s.focusedWindow with
  | some w => w.workspace_id
  | none =>
      let visible := s.windows.filter (fun w => !w.is_minimized)
      match maxByKey (workspaceCount visible) ((visible.map Window.workspace_id).dedup) with
      | some ws => ws
      | none => s.current_workspace

/-- The x/y center of a window's rectangle. -/
def windowCenter (w : Window) : ℚ × ℚ :=
  (w.rect.x + w.rect.width / 2, w.rect.y + w.rect.height / 2)

/-- Strict half-plane test of WindowManager::find_window_in_direction. -/
def inDirection (d : Direction) (fc wc : ℚ × ℚ) : Bool :=
  match d with
  | .left => decide (wc.1 < fc.1)
  | .right => decide (fc.1 < wc.1)
  | .up => decide (wc.2 < fc.2)
  | .down => decide (fc.2 < wc.2)

/-- Squared Euclidean distance between two points (the source compares plain
Euclidean distances, which is equivalent). -/
def distSqPt (a b : ℚ × ℚ) : ℚ :=
  (b.1 - a.1) ^ 2 + (b.2 - a.2) ^ 2

/-- Candidate filter of find_window_in_direction: same effective workspace,
not minimized, not the focused window itself. -/
def directionCandidates (s : EngineState) (focusedId : ℕ) : List Window :=
  let eff := s.getEffectiveCurrentWorkspace
  s.windows.filter (fun w =>
    w.workspace_id = eff && !w.is_minimized && w.id ≠ focusedId)

/-- Fold step of find_window_in_direction's selection loop: an in-direction
window replaces the best candidate when strictly nearer. -/
def pickNearestStep (d : Direction) (fc : ℚ × ℚ) (best : Option Window) (w : Window) :
    Option Window :=
  if inDirection d fc (windowCenter w) then
    match best with
    | none => some w
    | some b =>
        if distSqPt fc (windowCenter w) < distSqPt fc (windowCenter b) then some w else some b
  else best

/-- Selection loop of find_window_in_direction: keep the in-direction window
at the strictly smallest Euclidean distance, earlier windows winning ties. -/
def pickNearest (d : Direction) (fc : ℚ × ℚ) (cands : List Window) : Option Window :=
  cands.foldl (pickNearestStep d fc) none

/-- WindowManager::find_window_in_direction. -/
def findWindowInDirection (s : EngineState) (d : Direction) : Option ℕ :=
  match s.focusedWindow with
  | none => none
  | some fw =>
      (pickNearest d (windowCenter fw) (s.directionCandidates fw.id)).map Window.id

/-- Decision taken by WindowManager::handle_immediate_window_positioning; the
constructor names the Window Control activity the engine then performs:
recordOnly and keepInPlace issue no call at all. -/
inductive ImmediateAction where
  | recordOnly
  | swapWith (target : ℕ)
  | snapMove (snapRect : Rect)
  | keepInPlace
  | returnTo (original : Rect)
deriving DecidableEq

/-- WindowManager::handle_immediate_window_positioning: always record the new
rectangle; when the window moved more than 20 px from its previously stored
rectangle, consult the snap zones at its new center — center zone swaps with
the window under the center or returns to the previous rectangle, an edge or
corner zone snaps unless the rect is already within 10 px of the snap rect in
every component, and a center outside every zone returns to the previous
rectangle.  The host-dependent execution of the action (and its conditional
state writes) happens after this decision and is not part of this function. -/
def immediateDecision (s s2 : EngineState) (wid : ℕ) (newRect : Rect) : ImmediateAction :=
  match s.previous_window_positions wid with
  | none => .recordOnly
  | some prev =>
      if sqrtCmpGT (SnapManager.dragDistanceSq prev newRect) 20 then
        match s.snap.findZoneAtPoint (newRect.x + newRect.width / 2)
            (newRect.y + newRect.height / 2) with
        | some .center =>
            match SnapManager.findWindowUnderDrag wid newRect
                (s2.windows.filter (fun w =>
                  w.workspace_id = s2.getEffectiveCurrentWorkspace && !w.is_minimized)) with
            | some target => .swapWith target
            | none => .returnTo prev
        | some _ =>
            match s.snap.findSnapTarget newRect with
            | some snapRect =>
                if 10 < |snapRect.x - newRect.x| ∨ 10 < |snapRect.y - newRect.y|
                    ∨ 10 < |snapRect.width - newRect.width|
                    ∨ 10 < |snapRect.height - newRect.height| then
                  .snapMove snapRect
                else .keepInPlace
            | none => .keepInPlace
        | none => .returnTo prev
      else .recordOnly

/-- State and decision of one handle_immediate_window_positioning run: the new
rectangle is always recorded first; the decision (immediateDecision, reading
the previous position from the pre-call state and the world model from the
updated one, exactly as the source does) only applies when no NSWindow drag is
in progress. -/
def immediatePositioning (s : EngineState) (wid : ℕ) (newRect : Rect) :
    EngineState × ImmediateAction :=
  let s2 : EngineState :=
    { s with previous_window_positions := setPrev s.previous_window_positions wid newRect,
             windows := setWindowRect s.windows wid newRect }
  if wid ∈ s.user_dragging_windows then (s2, .recordOnly)
  else (s2, immediateDecision s s2 wid newRect)

/-- Classification of one WindowMoved event by the WindowMoved arm of
WindowManager::handle_window_event.  absorbed and dragTracked perform no
Window Control call, never touch the snap manager's drag state, and produce
no DragResult. -/
inductive MovedOutcome where
  | absorbed
  | dragTracked
  | immediate (a : ImmediateAction)
deriving DecidableEq

/-- WindowMoved arm of WindowManager::handle_window_event: an id in the
programmatically_moving set is removed from it and its stored rectangle is
updated silently; an id in user_dragging_windows only has its rectangles
tracked; any other id goes through immediate positioning. -/
def windowMovedStep (s : EngineState) (wid : ℕ) (newRect : Rect) :
    EngineState × MovedOutcome :=
  if wid ∈ s.programmatically_moving then
    ({ s with programmatically_moving := s.programmatically_moving.erase wid,
              windows := setWindowRect s.windows wid newRect,
              previous_window_positions := setPrev s.previous_window_positions wid newRect },
     .absorbed)
  else if wid ∈ s.user_dragging_windows then
    ({ s with windows := setWindowRect s.windows wid newRect,
              previous_window_positions := setPrev s.previous_window_positions wid newRect },
     .dragTracked)
  else
    let q := immediatePositioning s wid newRect
    (q.1, .immediate q.2)

/-- Command::MoveWindow handling: when the id is stored, the engine inserts it
into programmatically_moving before invoking Window Control move. -/
def moveWindowCommand (s : EngineState) (wid : ℕ) : EngineState :=
  if (s.windows.find? (fun w => w.id = wid)).isSome then
    { s with programmatically_moving := insert wid s.programmatically_moving }
  else s

/-- MacOSWindowSystem::get_current_workspace on the Ok path: a raw host report
of 0 is mapped to workspace 1. -/
def hostReportedWorkspace (raw : ℕ) : ℕ :=
  if raw = 0 then 1 else raw

/-- Workspace update step of WindowManager::refresh_windows: store the value
obtained from get_current_workspace (the conditional assignment in the source
yields the same state). -/
def applyWorkspaceRefresh (s : EngineState) (raw : ℕ) : EngineState :=
  { s with current_workspace := hostReportedWorkspace raw }

end EngineState

/-! ## Accessibility window control (src/macos/accessibility.rs) -/

/-- AccessibilityManager::find_window_element: look the id up in the cache;
on a miss refresh the cache and look again.  The two cache views (before and
after the refresh) are passed as functions into Option; element handles are
opaque naturals. -/
def axFindWindowElement (cachePre cachePost : ℕ → Option ℕ) (wid : ℕ) : Option ℕ :=
  match cachePre wid with
  | some e => some e
  | none => cachePost wid

/-- AccessibilityManager::move_window: when an element is found, perform
set_window_rect on it and propagate its result; when none is found, skip the
move silently and succeed.  The second component lists the set_window_rect
invocations performed. -/
def axMoveWindow (cachePre cachePost : ℕ → Option ℕ)
    (setRectResult : ℕ → Rect → Except String Unit) (wid : ℕ) (r : Rect) :
    Except String Unit × List (ℕ × Rect) :=
  match axFindWindowElement cachePre cachePost wid with
  | some e => (setRectResult e r, [(e, r)])
  | none => (Except.ok (), [])

/-! ## Definitions following the specification's words, for comparison with
the source-derived functions -/

/-- Treatment the specification prescribes for an unsolicited WindowMoved:
identical to the end of a single-shot drag, i.e. the Snap Engine's
end-of-drag procedure with initial_rect equal to the previously stored
rectangle (the synthetic drag state is installed via start_window_drag). -/
def specUnsolicitedDragResult (m : SnapManager) (wid : ℕ) (prev finalR : Rect)
    (startT now : ℕ) (ws : List Window) : DragResult :=
  ((m.startWindowDrag wid prev startT).endWindowDrag now wid finalR ws).1

/-- Whether an immediate-positioning decision makes the engine issue a Window
Control call (handle_immediate_window_positioning issues none for recordOnly
and keepInPlace). -/
def EngineState.ImmediateAction.issuesWindowControlCall :
    EngineState.ImmediateAction → Bool
  | .recordOnly => false
  | .keepInPlace => false
  | .swapWith _ => true
  | .snapMove _ => true
  | .returnTo _ => true

/-- Whether executing a DragResult (as WindowManager::handle_drag_event does)
moves at least one window. -/
def DragResult.executionIssuesMove : DragResult → Bool
  | .noAction => false
  | .snapToZone _ => true
  | .swapWithWindow _ => true
  | .returnToOriginal _ => true

/-- Weight the specification prescribes for directional selection:
1 + (perpendicular_delta / max(primary_delta, 1)) * 0.5. -/
def specDirectionalWeight (primary perp : ℚ) : ℚ :=
  1 + perp / max primary 1 * (1/2)

/-- Primary (along the direction axis) and perpendicular absolute deltas
between the focused center and a candidate center. -/
def directionDeltas (d : Direction) (fc wc : ℚ × ℚ) : ℚ × ℚ :=
  match d with
  | .left => (|wc.1 - fc.1|, |wc.2 - fc.2|)
  | .right => (|wc.1 - fc.1|, |wc.2 - fc.2|)
  | .up => (|wc.2 - fc.2|, |wc.1 - fc.1|)
  | .down => (|wc.2 - fc.2|, |wc.1 - fc.1|)

/-- Square of the weighted distance the specification prescribes (squared so
that no square roots are needed; the weight is nonnegative on the relevant
inputs, so comparisons agree with the unsquared form). -/
def specWeightedDistSq (d : Direction) (fc wc : ℚ × ℚ) : ℚ :=
  let pp := directionDeltas d fc wc
  EngineState.distSqPt fc wc * specDirectionalWeight pp.1 pp.2 ^ 2

/-! ## BSP tree lemmas (towards C4 and C5) -/

/-! ## Concrete states used by the claim witnesses and counterexamples -/

/-- Invariant carried by the layout manager's BSP state: the tree (when
present) is structurally sane, has both-or-neither children everywhere, and
stores no duplicate ids.  Every tree the manager builds satisfies it. -/
def LayoutManager.treeInv : Option BSPNode → Prop
  | none => True
  | some t => BSPNode.wfb t = true ∧ BSPNode.biform t = true ∧ (BSPNode.treeIds t).Nodup

/-- Windows of the C4/C5 witnesses. -/
def cwWindows : List Window :=
  [⟨1, "a", "x", 3, ⟨0, 0, 300, 200⟩, false, true, 1⟩,
   ⟨2, "b", "y", 4, ⟨300, 0, 300, 200⟩, false, false, 1⟩]

/-- Layout manager of the C4 witness: BSP mode, empty tree, split ratio 0.5. -/
def c4Mgr : LayoutManager := ⟨.bsp, none, 1/2⟩

/-- Concrete witness state for C1: window 9 was marked as programmatically
moving before a Window Control call. -/
def c1State : EngineState :=
  { windows := [⟨9, "w", "app", 4, ⟨0, 0, 600, 400⟩, false, true, 1⟩]
    current_workspace := 1
    programmatically_moving := {9}
    user_dragging_windows := ∅
    previous_window_positions := fun _ => none
    snap := SnapManager.new ⟨0, 0, 1600, 1000⟩ 50 }

/-- Screen rectangle of scenario A. -/
def c3Screen : Rect := ⟨0, 0, 1000, 800⟩

/-- Fresh BSP layout manager with split_ratio 0.5. -/
def c3Mgr : LayoutManager := ⟨.bsp, none, 1/2⟩

/-- Snap manager of the F scenario: default threshold 50, drag of window 7
started at time 0 from (100,100,400,300). -/
def c6Manager : SnapManager :=
  (SnapManager.new ⟨0, 0, 1600, 1000⟩ 50).startWindowDrag 7 ⟨100, 100, 400, 300⟩ 0

/-- Concrete window for the C8 counterexample. -/
def c8Window : Window := ⟨1, "t", "app", 3, ⟨0, 0, 100, 100⟩, false, false, 1⟩

/-- Screen of the C2 counterexample. -/
def c2Screen : Rect := ⟨0, 0, 1600, 1000⟩

/-- Previously stored rectangle of window 1. -/
def c2Prev : Rect := ⟨100, 100, 400, 300⟩

/-- New rectangle after an unsolicited 10 px move. -/
def c2New : Rect := ⟨110, 100, 400, 300⟩

/-- The moved window. -/
def c2Win : Window := ⟨1, "t", "app", 5, c2Prev, false, false, 1⟩

/-- Engine state of the C2 counterexample: window 1 neither programmatically
moving nor in an active drag, previous position stored. -/
def c2State : EngineState :=
  { windows := [c2Win]
    current_workspace := 1
    programmatically_moving := ∅
    user_dragging_windows := ∅
    previous_window_positions := fun x => if x = 1 then some c2Prev else none
    snap := SnapManager.new c2Screen 50 }

/-- Witness state for the amended C2: window 3 moved 6 px with a stored
previous position and no drag in progress. -/
def c2WitnessState : EngineState :=
  { windows := [⟨3, "w", "app", 6, ⟨0, 0, 300, 200⟩, false, false, 1⟩]
    current_workspace := 1
    programmatically_moving := ∅
    user_dragging_windows := ∅
    previous_window_positions := fun x => if x = 3 then some ⟨0, 0, 300, 200⟩ else none
    snap := SnapManager.new ⟨0, 0, 1600, 1000⟩ 50 }

/-- Witness state for C9: three non-minimized windows on workspaces 2, 2 and
3, none focused. -/
def c9State : EngineState :=
  { windows := [⟨1, "a", "x", 3, ⟨0, 0, 100, 100⟩, false, false, 2⟩,
                ⟨2, "b", "y", 4, ⟨0, 0, 100, 100⟩, false, false, 2⟩,
                ⟨3, "c", "z", 5, ⟨0, 0, 100, 100⟩, false, false, 3⟩]
    current_workspace := 7
    programmatically_moving := ∅
    user_dragging_windows := ∅
    previous_window_positions := fun _ => none
    snap := SnapManager.new ⟨0, 0, 1600, 1000⟩ 50 }

/-- Focused window of the C7 scenario, centered at the origin. -/
def c7F : Window := ⟨10, "f", "app", 2, ⟨-50, -50, 100, 100⟩, false, true, 1⟩

/-- Candidate A: center (100, 0), Euclidean distance 100, zero perpendicular
offset, so spec-weighted distance 100. -/
def c7A : Window := ⟨1, "a", "app", 2, ⟨50, -50, 100, 100⟩, false, false, 1⟩

/-- Candidate B: center (63, 76), Euclidean distance squared 9745 (< 100²),
but spec-weighted distance squared 9745·(101/63)² > 100². -/
def c7B : Window := ⟨2, "b", "app", 2, ⟨13, 26, 100, 100⟩, false, false, 1⟩

/-- Engine state of the C7 counterexample. -/
def c7State : EngineState :=
  { windows := [c7F, c7A, c7B]
    current_workspace := 1
    programmatically_moving := ∅
    user_dragging_windows := ∅
    previous_window_positions := fun _ => none
    snap := SnapManager.new ⟨0, 0, 1600, 1000⟩ 50 }

/-- Manager of the C5 witness: BSP mode, empty tree, split ratio 0.5. -/
def c5Mgr : LayoutManager := ⟨.bsp, none, 1/2⟩

/-- Windows of the C5 witness. -/
def c5Windows : List Window :=
  [⟨1, "a", "x", 3, ⟨0, 0, 300, 200⟩, false, true, 1⟩,
   ⟨2, "b", "y", 4, ⟨300, 0, 300, 200⟩, false, false, 1⟩]

/-- Induction principle for BSPNode exposing the optional children. -/
theorem BSPNode.myInd (P : BSPNode → Prop)
    (h : ∀ re sr hz w l r,
      (∀ t, l = some t → P t) → (∀ t, r = some t → P t) →
      P (.mk re sr hz w l r)) : ∀ t, P t := by
  intro t
  induction t using BSPNode.rec
    (motive_2 := fun o => ∀ u, o = some u → P u) with
  | mk re sr hz w l r ihl ihr => exact h re sr hz w l r ihl ihr
  | none => rename_i u hu; exact absurd hu (by simp)
  | some a ih => rename_i u hu; cases hu; exact ih

/-- updateRect does not change the stored window ids. -/
theorem BSPNode.treeIds_updateRect (re : Rect) (t : BSPNode) :
    treeIds (updateRect re t) = treeIds t := by
  induction t using BSPNode.myInd generalizing re with
  | h re0 sr hz w l r ihl ihr =>
    cases l with
    | none => cases r with
      | none => rfl
      | some rt => rfl
    | some lt =>
      cases r with
      | none => rfl
      | some rt =>
          simp only [updateRect, treeIds, ihl lt rfl, ihr rt rfl]

/-- updateRect preserves structural sanity. -/
theorem BSPNode.wfb_updateRect (re : Rect) (t : BSPNode) (h : wfb t = true) :
    wfb (updateRect re t) = true := by
  induction t using BSPNode.myInd generalizing re with
  | h re0 sr hz w l r ihl ihr =>
    cases l with
    | none => cases r with
      | none => exact h
      | some rt => exact h
    | some lt =>
      cases r with
      | none => exact h
      | some rt =>
          simp only [wfb, Bool.and_eq_true] at h
          simp only [updateRect, wfb, Bool.and_eq_true]
          exact ⟨h.1, ihl lt rfl _ h.2.1, ihr rt rfl _ h.2.2⟩

/-- updateRect preserves the both-or-neither children shape. -/
theorem BSPNode.biform_updateRect (re : Rect) (t : BSPNode) (h : biform t = true) :
    biform (updateRect re t) = true := by
  induction t using BSPNode.myInd generalizing re with
  | h re0 sr hz w l r ihl ihr =>
    cases l with
    | none => cases r with
      | none => exact h
      | some rt => exact h
    | some lt =>
      cases r with
      | none => exact h
      | some rt =>
          simp only [biform, Bool.and_eq_true] at h
          simp only [updateRect, biform, Bool.and_eq_true]
          exact ⟨ihl lt rfl _ h.1, ihr rt rfl _ h.2⟩

/-- insertWindow appends exactly the inserted id to the stored ids. -/
theorem BSPNode.treeIds_insert (wid : ℕ) (ratio : ℚ) (t : BSPNode) :
    ∀ d, treeIds (insertWindow wid ratio t d) = treeIds t ++ [wid] := by
  induction t using BSPNode.myInd with
  | h re sr hz w l r ihl ihr =>
    intro d
    cases l with
    | none =>
      cases r with
      | none =>
          cases w with
          | some existing =>
              simp only [insertWindow, treeIds_updateRect, treeIds, newLeaf, Option.toList]
              rfl
          | none => rfl
      | some rt =>
          simp only [insertWindow, treeIds, ihr rt rfl]
          simp
    | some lt =>
      cases r with
      | none =>
          simp only [insertWindow, treeIds, ihl lt rfl]
          simp
      | some rt =>
          simp only [insertWindow, treeIds, ihr rt rfl]
          simp

/-- insertWindow preserves structural sanity. -/
theorem BSPNode.wfb_insert (wid : ℕ) (ratio : ℚ) (t : BSPNode) (h : wfb t = true) :
    ∀ d, wfb (insertWindow wid ratio t d) = true := by
  induction t using BSPNode.myInd with
  | h re sr hz w l r ihl ihr =>
    intro d
    cases l with
    | none =>
      cases r with
      | none =>
          cases w with
          | some existing =>
              apply wfb_updateRect
              rfl
          | none => rfl
      | some rt =>
          simp only [wfb, Bool.and_eq_true] at h
          simp only [insertWindow, wfb, Bool.and_eq_true]
          exact ⟨h.1, ihr rt rfl h.2 (d + 1)⟩
    | some lt =>
      cases r with
      | none =>
          simp only [wfb, Bool.and_eq_true] at h
          simp only [insertWindow, wfb, Bool.and_eq_true]
          exact ⟨h.1, ihl lt rfl h.2 (d + 1)⟩
      | some rt =>
          simp only [wfb, Bool.and_eq_true] at h
          simp only [insertWindow, wfb, Bool.and_eq_true]
          exact ⟨h.1, h.2.1, ihr rt rfl h.2.2 (d + 1)⟩

/-- insertWindow preserves the both-or-neither children shape. -/
theorem BSPNode.biform_insert (wid : ℕ) (ratio : ℚ) (t : BSPNode) (h : biform t = true) :
    ∀ d, biform (insertWindow wid ratio t d) = true := by
  induction t using BSPNode.myInd with
  | h re sr hz w l r ihl ihr =>
    intro d
    cases l with
    | none =>
      cases r with
      | none =>
          cases w with
          | some existing =>
              apply biform_updateRect
              rfl
          | none => rfl
      | some rt => simp only [biform] at h; cases h
    | some lt =>
      cases r with
      | none => simp only [biform] at h; cases h
      | some rt =>
          simp only [biform, Bool.and_eq_true] at h
          simp only [insertWindow, biform, Bool.and_eq_true]
          exact ⟨h.1, ihr rt rfl h.2 (d + 1)⟩

/-- On structurally sane trees, count_windows is the number of stored ids. -/
theorem BSPNode.countWindows_eq_length (t : BSPNode) (h : wfb t = true) :
    countWindows t = (treeIds t).length := by
  induction t using BSPNode.myInd with
  | h re sr hz w l r ihl ihr =>
    cases l with
    | none =>
      cases r with
      | none => cases w <;> rfl
      | some rt =>
          cases w with
          | some x => simp [wfb] at h
          | none =>
              simp only [wfb, Bool.and_eq_true] at h
              simp only [countWindows, treeIds, Option.toList]
              simpa using ihr rt rfl h.2
    | some lt =>
      cases r with
      | none =>
          cases w with
          | some x => simp [wfb] at h
          | none =>
              simp only [wfb, Bool.and_eq_true] at h
              simp only [countWindows, treeIds, Option.toList]
              simpa using ihl lt rfl h.2
      | some rt =>
          cases w with
          | some x => simp [wfb] at h
          | none =>
              simp only [wfb, Bool.and_eq_true] at h
              simp only [countWindows, treeIds, Option.toList]
              simp [ihl lt rfl h.2.1, ihr rt rfl h.2.2]

/-- On structurally sane trees, contains_window decides membership in the
stored ids. -/
theorem BSPNode.contains_iff (t : BSPNode) (h : wfb t = true) (wid : ℕ) :
    containsWindow t wid = true ↔ wid ∈ treeIds t := by
  induction t using BSPNode.myInd with
  | h re sr hz w l r ihl ihr =>
    cases l with
    | none =>
      cases r with
      | none =>
          cases w with
          | some x =>
              simp only [containsWindow, treeIds, Option.toList, beq_iff_eq,
                Option.some.injEq, List.mem_singleton]
              exact eq_comm
          | none => simp [containsWindow, treeIds, Option.toList]
      | some rt =>
          cases w with
          | some x => simp [wfb] at h
          | none =>
              simp only [wfb, Bool.and_eq_true] at h
              simp only [containsWindow, treeIds, Option.toList]
              simpa using ihr rt rfl h.2
    | some lt =>
      cases r with
      | none =>
          cases w with
          | some x => simp [wfb] at h
          | none =>
              simp only [wfb, Bool.and_eq_true] at h
              simp only [containsWindow, treeIds, Option.toList]
              simpa using ihl lt rfl h.2
      | some rt =>
          cases w with
          | some x => simp [wfb] at h
          | none =>
              simp only [wfb, Bool.and_eq_true] at h
              simp only [containsWindow, treeIds, Option.toList, Bool.or_eq_true,
                List.nil_append, List.mem_append]
              rw [ihl lt rfl h.2.1, ihr rt rfl h.2.2]

/-- collapse_if_needed on a two-child container: the stored ids are those of
the children, and sanity and shape are preserved. -/
theorem BSPNode.collapse_spec (re : Rect) (sr : ℚ) (hz : Bool) (lt rt : BSPNode)
    (hwl : wfb lt = true) (hwr : wfb rt = true)
    (hbl : biform lt = true) (hbr : biform rt = true) :
    treeIds (collapseIfNeeded (.mk re sr hz none (some lt) (some rt)))
        = treeIds lt ++ treeIds rt
    ∧ wfb (collapseIfNeeded (.mk re sr hz none (some lt) (some rt))) = true
    ∧ biform (collapseIfNeeded (.mk re sr hz none (some lt) (some rt))) = true := by
  unfold collapseIfNeeded
  by_cases hl : countWindows lt = 0 <;> by_cases hr2 : countWindows rt = 0
  · have hln : treeIds lt = [] :=
      List.length_eq_zero.mp ((countWindows_eq_length lt hwl).symm.trans hl)
    have hrn : treeIds rt = [] :=
      List.length_eq_zero.mp ((countWindows_eq_length rt hwr).symm.trans hr2)
    simp [hl, hr2, treeIds, wfb, biform, hln, hrn]
  · have hln : treeIds lt = [] :=
      List.length_eq_zero.mp ((countWindows_eq_length lt hwl).symm.trans hl)
    simp [hl, hr2, treeIds, hln, hwr, hbr]
  · have hrn : treeIds rt = [] :=
      List.length_eq_zero.mp ((countWindows_eq_length rt hwr).symm.trans hr2)
    simp [hl, hr2, treeIds, hrn, hwl, hbl]
  · simp [hl, hr2, treeIds, wfb, biform, hwl, hwr, hbl, hbr]

/-- remove_window on a sane tree: it filters out every occurrence of the id,
returns whether the id was present, and preserves sanity and shape. -/
theorem BSPNode.remove_spec (wid : ℕ) (t : BSPNode)
    (hw : wfb t = true) (hb : biform t = true) :
    treeIds (removeWindow t wid).1 = (treeIds t).filter (fun y => y ≠ wid)
    ∧ ((removeWindow t wid).2 = true ↔ wid ∈ treeIds t)
    ∧ wfb (removeWindow t wid).1 = true
    ∧ biform (removeWindow t wid).1 = true := by
  induction t using BSPNode.myInd with
  | h re sr hz w l r ihl ihr =>
    cases l with
    | none =>
      cases r with
      | none =>
          cases w with
          | none => simp [removeWindow, treeIds, Option.toList, wfb, biform]
          | some x =>
              by_cases hx : x = wid
              · subst hx
                simp [removeWindow, treeIds, Option.toList, wfb, biform]
              · have : ¬(some x = some wid) := by simp [hx]
                simp [removeWindow, this, treeIds, Option.toList, wfb, biform, hx,
                  Ne.symm hx]
      | some rt => simp [biform] at hb
    | some lt =>
      cases r with
      | none => simp [biform] at hb
      | some rt =>
          cases w with
          | some x => simp [wfb] at hw
          | none =>
              simp only [wfb, Bool.and_eq_true] at hw
              simp only [biform, Bool.and_eq_true] at hb
              obtain ⟨hidsl, hflagl, hwl2, hbl2⟩ := ihl lt rfl hw.2.1 hb.1
              obtain ⟨hidsr, hflagr, hwr2, hbr2⟩ := ihr rt rfl hw.2.2 hb.2
              simp only [removeWindow]
              by_cases hfl : ((removeWindow lt wid).2 || (removeWindow rt wid).2) = true
              · simp only [hfl, if_true]
                obtain ⟨hcids, hcwf, hcbf⟩ :=
                  collapse_spec re sr hz (removeWindow lt wid).1 (removeWindow rt wid).1
                    hwl2 hwr2 hbl2 hbr2
                refine ⟨?_, ?_, hcwf, hcbf⟩
                · rw [hcids, hidsl, hidsr]
                  simp [treeIds, List.filter_append]
                · simp only [hfl, true_iff]
                  rcases Bool.or_eq_true _ _ |>.mp hfl with hx | hx
                  · have := hflagl.mp hx
                    simp [treeIds, this]
                  · have := hflagr.mp hx
                    simp [treeIds, this]
              · simp only [hfl, if_false]
                have hfl2 : (removeWindow lt wid).2 = false ∧ (removeWindow rt wid).2 = false := by
                  constructor <;> by_contra hcon <;>
                    apply hfl <;> simp [Bool.or_eq_true] <;>
                    [left; right] <;> simpa using hcon
                refine ⟨?_, ?_, ?_, ?_⟩
                · simp [treeIds, hidsl, hidsr, List.filter_append]
                · constructor
                  · intro hcon; cases hcon
                  · intro hmem
                    simp only [treeIds, Option.toList, List.nil_append, List.mem_append] at hmem
                    rcases hmem with hm | hm
                    · exact absurd (hflagl.mpr hm) (by simp [hfl2.1])
                    · exact absurd (hflagr.mpr hm) (by simp [hfl2.2])
                · simp [wfb, hwl2, hwr2]
                · simp [biform, hbl2, hbr2]

/-- Removal loop of the BSP sync over an arbitrary worklist: the surviving
ids are a sublist of the original ones, an id survives exactly when it is
requested or not on the worklist, and sanity and shape are preserved. -/
theorem bspRemoveFold_spec (ids : List ℕ) :
    ∀ (L : List ℕ) (t : BSPNode), BSPNode.wfb t = true → BSPNode.biform t = true →
      List.Sublist (BSPNode.treeIds (L.foldl
          (fun t wid => if wid ∈ ids then t else (BSPNode.removeWindow t wid).1) t))
        (BSPNode.treeIds t)
      ∧ (∀ y, y ∈ BSPNode.treeIds (L.foldl
          (fun t wid => if wid ∈ ids then t else (BSPNode.removeWindow t wid).1) t)
          ↔ (y ∈ BSPNode.treeIds t ∧ (y ∈ ids ∨ y ∉ L)))
      ∧ BSPNode.wfb (L.foldl
          (fun t wid => if wid ∈ ids then t else (BSPNode.removeWindow t wid).1) t) = true
      ∧ BSPNode.biform (L.foldl
          (fun t wid => if wid ∈ ids then t else (BSPNode.removeWindow t wid).1) t) = true := by
  intro L
  induction L with
  | nil =>
      intro t hw hb
      simp only [List.foldl_nil]
      exact ⟨List.Sublist.refl _, by simp, hw, hb⟩
  | cons a L ih =>
      intro t hw hb
      simp only [List.foldl_cons]
      by_cases ha : a ∈ ids
      · simp only [if_pos ha]
        obtain ⟨hsub, hmem, hw2, hb2⟩ := ih t hw hb
        refine ⟨hsub, ?_, hw2, hb2⟩
        intro y
        rw [hmem y]
        constructor
        · rintro ⟨hyt, hy⟩
          refine ⟨hyt, ?_⟩
          rcases hy with hy | hy
          · exact Or.inl hy
          · by_cases hya : y = a
            · exact Or.inl (hya ▸ ha)
            · exact Or.inr (by simp [hya, hy])
        · rintro ⟨hyt, hy⟩
          refine ⟨hyt, ?_⟩
          rcases hy with hy | hy
          · exact Or.inl hy
          · exact Or.inr (fun hc => hy (List.mem_cons_of_mem _ hc))
      · simp only [if_neg ha]
        obtain ⟨hids, -, hw2, hb2⟩ := BSPNode.remove_spec a t hw hb
        obtain ⟨hsub, hmem, hw3, hb3⟩ := ih _ hw2 hb2
        refine ⟨hsub.trans (hids ▸ List.filter_sublist _), ?_, hw3, hb3⟩
        intro y
        rw [hmem y, hids]
        simp only [List.mem_filter, decide_eq_true_eq]
        constructor
        · rintro ⟨⟨hyt, hya⟩, hy⟩
          refine ⟨hyt, ?_⟩
          rcases hy with hy | hy
          · exact Or.inl hy
          · exact Or.inr (by simp [hya, hy])
        · rintro ⟨hyt, hy⟩
          rcases hy with hy | hy
          · have hya : y ≠ a := fun hc => ha (hc ▸ hy)
            exact ⟨⟨hyt, hya⟩, Or.inl hy⟩
          · have hya : y ≠ a := fun hc => hy (hc ▸ List.mem_cons_self _ _)
            exact ⟨⟨hyt, hya⟩, Or.inr (fun hc => hy (List.mem_cons_of_mem _ hc))⟩

/-- Insertion loop of the BSP sync: the result is sane, keeps distinct ids
distinct, and stores exactly the old ids plus the requested ones. -/
theorem bspSyncInsert_spec (ratio : ℚ) :
    ∀ (ws : List Window) (t : BSPNode),
      BSPNode.wfb t = true → BSPNode.biform t = true → (BSPNode.treeIds t).Nodup →
      BSPNode.wfb (LayoutManager.bspSyncInsert ratio ws t) = true
      ∧ BSPNode.biform (LayoutManager.bspSyncInsert ratio ws t) = true
      ∧ (BSPNode.treeIds (LayoutManager.bspSyncInsert ratio ws t)).Nodup
      ∧ (∀ y, y ∈ BSPNode.treeIds (LayoutManager.bspSyncInsert ratio ws t)
          ↔ y ∈ BSPNode.treeIds t ∨ y ∈ ws.map Window.id) := by
  intro ws
  induction ws with
  | nil =>
      intro t hw hb hn
      refine ⟨hw, hb, hn, by simp [LayoutManager.bspSyncInsert]⟩
  | cons w ws ih =>
      intro t hw hb hn
      have hcons : LayoutManager.bspSyncInsert ratio (w :: ws) t
          = LayoutManager.bspSyncInsert ratio ws
              (if BSPNode.containsWindow t w.id then t
               else BSPNode.insertWindow w.id ratio t 0) := rfl
      rw [hcons]
      by_cases hc : BSPNode.containsWindow t w.id = true
      · simp only [hc, if_true]
        have hcin : w.id ∈ BSPNode.treeIds t := (BSPNode.contains_iff t hw w.id).mp hc
        obtain ⟨h1, h2, h3, h4⟩ := ih t hw hb hn
        refine ⟨h1, h2, h3, ?_⟩
        intro y
        rw [h4 y]
        simp only [List.map_cons, List.mem_cons]
        constructor
        · rintro (hy | hy)
          · exact Or.inl hy
          · exact Or.inr (Or.inr hy)
        · rintro (hy | hy | hy)
          · exact Or.inl hy
          · exact Or.inl (hy ▸ hcin)
          · exact Or.inr hy
      · simp only [Bool.not_eq_true] at hc
        simp only [hc, Bool.false_eq_true, if_false]
        have hnin : w.id ∉ BSPNode.treeIds t := fun hm =>
          (by simp [hc] : ¬BSPNode.containsWindow t w.id = true)
            ((BSPNode.contains_iff t hw w.id).mpr hm)
        have hw2 := BSPNode.wfb_insert w.id ratio t hw 0
        have hb2 := BSPNode.biform_insert w.id ratio t hb 0
        have hids2 := BSPNode.treeIds_insert w.id ratio t 0
        have hn2 : (BSPNode.treeIds (BSPNode.insertWindow w.id ratio t 0)).Nodup := by
          rw [hids2]
          simpa [List.nodup_append] using ⟨hn, fun hc2 => hnin hc2⟩
        obtain ⟨h1, h2, h3, h4⟩ := ih _ hw2 hb2 hn2
        refine ⟨h1, h2, h3, ?_⟩
        intro y
        rw [h4 y, hids2]
        simp only [List.mem_append, List.mem_singleton, List.map_cons, List.mem_cons]
        tauto

/-- Fresh-build loop of compute_bsp_layout (no containment check): it appends
the window ids in order and preserves sanity and shape. -/
theorem bspFreshFold_spec (ratio : ℚ) :
    ∀ (ws : List Window) (t : BSPNode),
      BSPNode.wfb t = true → BSPNode.biform t = true →
      BSPNode.treeIds (ws.foldl (fun t w => BSPNode.insertWindow w.id ratio t 0) t)
          = BSPNode.treeIds t ++ ws.map Window.id
      ∧ BSPNode.wfb (ws.foldl (fun t w => BSPNode.insertWindow w.id ratio t 0) t) = true
      ∧ BSPNode.biform (ws.foldl (fun t w => BSPNode.insertWindow w.id ratio t 0) t) = true := by
  intro ws
  induction ws with
  | nil =>
      intro t hw hb
      exact ⟨by simp, hw, hb⟩
  | cons w ws ih =>
      intro t hw hb
      simp only [List.foldl_cons]
      obtain ⟨h1, h2, h3⟩ := ih _ (BSPNode.wfb_insert w.id ratio t hw 0)
        (BSPNode.biform_insert w.id ratio t hb 0)
      refine ⟨?_, h2, h3⟩
      rw [h1, BSPNode.treeIds_insert]
      simp

/-- On sane trees the collected mapping is keyed exactly by the stored ids,
in order. -/
theorem BSPNode.collect_map_fst (g : ℚ) (t : BSPNode) (h : wfb t = true) :
    (collectWindowRects g t).map Prod.fst = treeIds t := by
  induction t using BSPNode.myInd with
  | h re sr hz w l r ihl ihr =>
    cases l with
    | none =>
        cases r with
        | none => cases w <;> rfl
        | some rt =>
            cases w with
            | some x => simp [wfb] at h
            | none =>
                simp only [wfb, Bool.and_eq_true] at h
                simp only [collectWindowRects, treeIds, Option.toList]
                simpa using ihr rt rfl h.2
    | some lt =>
        cases r with
        | none =>
            cases w with
            | some x => simp [wfb] at h
            | none =>
                simp only [wfb, Bool.and_eq_true] at h
                simp only [collectWindowRects, treeIds, Option.toList]
                simpa using ihl lt rfl h.2
        | some rt =>
            cases w with
            | some x => simp [wfb] at h
            | none =>
                simp only [wfb, Bool.and_eq_true] at h
                simp only [collectWindowRects, treeIds, Option.toList, List.map_append]
                simp [ihl lt rfl h.2.1, ihr rt rfl h.2.2]

/-- Key lists produced by mapping the pair constructor over an enumerated
window list reduce to the window ids. -/
theorem enum_map_pair_fst {β : Type} (l : List Window) (g : ℕ × Window → β) :
    ((l.enum.map (fun p => (p.2.id, g p))).map Prod.fst) = l.map Window.id := by
  rw [List.map_map]
  have : (Prod.fst ∘ fun p : ℕ × Window => (p.2.id, g p))
      = (Window.id ∘ Prod.snd) := rfl
  rw [this, ← List.map_map, List.enum_map_snd]

/-- The Stack mapping is keyed by the window ids in order. -/
theorem stack_keys (ratio : ℚ) (windows : List Window) (screen : Rect) (gap : ℚ) :
    (LayoutManager.computeStackLayout ratio windows screen gap).map Prod.fst
      = windows.map Window.id := by
  match windows with
  | [] => rfl
  | [w] => rfl
  | w0 :: w1 :: rest =>
      show w0.id :: _ = w0.id :: _
      rw [enum_map_pair_fst]

/-- The Grid mapping is keyed by the window ids in order. -/
theorem grid_keys (windows : List Window) (screen : Rect) (gap : ℚ) :
    (LayoutManager.computeGridLayout windows screen gap).map Prod.fst
      = windows.map Window.id := by
  match windows with
  | [] => rfl
  | w0 :: rest => exact enum_map_pair_fst (w0 :: rest) _

/-- The Spiral mapping is keyed by the window ids in order. -/
theorem spiral_keys (ratio : ℚ) (windows : List Window) (screen : Rect) (gap : ℚ) :
    (LayoutManager.computeSpiralLayout ratio windows screen gap).map Prod.fst
      = windows.map Window.id := by
  match windows with
  | [] => rfl
  | [w] => rfl
  | w0 :: w1 :: rest =>
      show w0.id :: _ = w0.id :: _
      rw [enum_map_pair_fst]

/-- The Column mapping is keyed by the window ids in order. -/
theorem column_keys (windows : List Window) (screen : Rect) (gap : ℚ) :
    (LayoutManager.computeColumnLayout windows screen gap).map Prod.fst
      = windows.map Window.id := by
  match windows with
  | [] => rfl
  | w0 :: rest => exact enum_map_pair_fst (w0 :: rest) _

/-- bspRoot2 produces a sane, duplicate-free tree holding exactly the
requested ids. -/
theorem bspRoot2_spec (mgr : LayoutManager) (w0 : Window) (rest : List Window)
    (screen : Rect)
    (hinv : LayoutManager.treeInv mgr.bsp_root)
    (hnodup : ((w0 :: rest).map Window.id).Nodup) :
    BSPNode.wfb (LayoutManager.bspRoot2 mgr w0 rest screen) = true
    ∧ BSPNode.biform (LayoutManager.bspRoot2 mgr w0 rest screen) = true
    ∧ (BSPNode.treeIds (LayoutManager.bspRoot2 mgr w0 rest screen)).Nodup
    ∧ (∀ y, y ∈ BSPNode.treeIds (LayoutManager.bspRoot2 mgr w0 rest screen)
        ↔ y ∈ (w0 :: rest).map Window.id) := by
  have hfreshIds : BSPNode.treeIds (rest.foldl
      (fun t w => BSPNode.insertWindow w.id mgr.split_ratio t 0)
      (BSPNode.newLeaf w0.id screen)) = (w0 :: rest).map Window.id := by
    obtain ⟨hidsF, -, -⟩ := bspFreshFold_spec mgr.split_ratio rest
      (BSPNode.newLeaf w0.id screen) rfl rfl
    rw [hidsF]
    simp [BSPNode.treeIds, BSPNode.newLeaf, Option.toList]
  obtain ⟨-, hwF, hbF⟩ := bspFreshFold_spec mgr.split_ratio rest
    (BSPNode.newLeaf w0.id screen) rfl rfl
  cases hroot : mgr.bsp_root with
  | none =>
      have hr2 : LayoutManager.bspRoot2 mgr w0 rest screen
          = rest.foldl (fun t w => BSPNode.insertWindow w.id mgr.split_ratio t 0)
              (BSPNode.newLeaf w0.id screen) := by
        unfold LayoutManager.bspRoot2
        rw [hroot]
      rw [hr2, hfreshIds]
      exact ⟨hwF, hbF, hnodup, fun y => Iff.rfl⟩
  | some root =>
      rw [hroot] at hinv
      obtain ⟨hw, hb, hn⟩ := hinv
      have hrw : LayoutManager.bspSyncRemove ((w0 :: rest).map Window.id) root
          = (BSPNode.treeIds root).foldl
              (fun t wid => if wid ∈ (w0 :: rest).map Window.id then t
                else (BSPNode.removeWindow t wid).1) root := rfl
      obtain ⟨hsub, hmemR, hwR, hbR⟩ :=
        bspRemoveFold_spec ((w0 :: rest).map Window.id) (BSPNode.treeIds root) root hw hb
      rw [← hrw] at hsub hmemR hwR hbR
      have hnR : (BSPNode.treeIds
          (LayoutManager.bspSyncRemove ((w0 :: rest).map Window.id) root)).Nodup :=
        hn.sublist hsub
      obtain ⟨hwI, hbI, hnI, hmemI⟩ := bspSyncInsert_spec mgr.split_ratio (w0 :: rest)
        (LayoutManager.bspSyncRemove ((w0 :: rest).map Window.id) root) hwR hbR hnR
      have hidsU : BSPNode.treeIds (BSPNode.updateRect screen
          (LayoutManager.bspSyncInsert mgr.split_ratio (w0 :: rest)
            (LayoutManager.bspSyncRemove ((w0 :: rest).map Window.id) root)))
          = BSPNode.treeIds (LayoutManager.bspSyncInsert mgr.split_ratio (w0 :: rest)
              (LayoutManager.bspSyncRemove ((w0 :: rest).map Window.id) root)) :=
        BSPNode.treeIds_updateRect _ _
      have hmemU : ∀ y, y ∈ BSPNode.treeIds (BSPNode.updateRect screen
          (LayoutManager.bspSyncInsert mgr.split_ratio (w0 :: rest)
            (LayoutManager.bspSyncRemove ((w0 :: rest).map Window.id) root)))
          ↔ y ∈ (w0 :: rest).map Window.id := by
        intro y
        rw [hidsU, hmemI y]
        constructor
        · rintro (hy | hy)
          · obtain ⟨hyt, hcase⟩ := (hmemR y).mp hy
            rcases hcase with hcase | hcase
            · exact hcase
            · exact absurd hyt hcase
          · exact hy
        · intro hy
          exact Or.inr hy
      have hwU := BSPNode.wfb_updateRect screen _ hwI
      have hbU := BSPNode.biform_updateRect screen _ hbI
      have hnU : (BSPNode.treeIds (BSPNode.updateRect screen
          (LayoutManager.bspSyncInsert mgr.split_ratio (w0 :: rest)
            (LayoutManager.bspSyncRemove ((w0 :: rest).map Window.id) root)))).Nodup := by
        rw [hidsU]; exact hnI
      have hcount : ¬(BSPNode.countWindows (BSPNode.updateRect screen
          (LayoutManager.bspSyncInsert mgr.split_ratio (w0 :: rest)
            (LayoutManager.bspSyncRemove ((w0 :: rest).map Window.id) root))) = 0) := by
        rw [BSPNode.countWindows_eq_length _ hwU]
        intro hzero
        have hnil := List.length_eq_zero.mp hzero
        have hm : w0.id ∈ BSPNode.treeIds (BSPNode.updateRect screen
            (LayoutManager.bspSyncInsert mgr.split_ratio (w0 :: rest)
              (LayoutManager.bspSyncRemove ((w0 :: rest).map Window.id) root))) :=
          (hmemU w0.id).mpr (by simp)
        rw [hnil] at hm
        cases hm
      have hr2 : LayoutManager.bspRoot2 mgr w0 rest screen
          = BSPNode.updateRect screen
              (LayoutManager.bspSyncInsert mgr.split_ratio (w0 :: rest)
                (LayoutManager.bspSyncRemove ((w0 :: rest).map Window.id) root)) := by
        unfold LayoutManager.bspRoot2
        rw [hroot]
        exact if_neg hcount
      rw [hr2]
      exact ⟨hwU, hbU, hnU, hmemU⟩

/-! ## Claim C4 -/

/-- C4 — Layout coverage: for every layout mode other than Float and Monocle
and every non-empty window list with pairwise-distinct ids, compute_layout
returns a mapping whose key set is exactly the set of input window ids, with
no duplicate keys; in BSP mode the synced tree likewise holds exactly the
requested ids with no duplicates. -/
theorem c4_layout_coverage (mgr : LayoutManager) (windows : List Window) (screen : Rect)
    (gap : ℚ)
    (hmode1 : mgr.current_layout ≠ .float) (hmode2 : mgr.current_layout ≠ .monocle)
    (hne : windows ≠ [])
    (hnodup : (windows.map Window.id).Nodup)
    (hinv : LayoutManager.treeInv mgr.bsp_root) :
    (((LayoutManager.computeLayout mgr windows screen gap).2.map Prod.fst).toFinset
        = (windows.map Window.id).toFinset
      ∧ ((LayoutManager.computeLayout mgr windows screen gap).2.map Prod.fst).Nodup)
    ∧ (mgr.current_layout = .bsp →
        ∃ root, (LayoutManager.computeLayout mgr windows screen gap).1.bsp_root = some root
          ∧ (BSPNode.treeIds root).toFinset = (windows.map Window.id).toFinset
          ∧ (BSPNode.treeIds root).Nodup) := by
  cases windows with
  | nil => exact absurd rfl hne
  | cons w0 rest =>
    cases hcl : mgr.current_layout with
    | float => exact absurd hcl hmode1
    | monocle => exact absurd hcl hmode2
    | stack =>
        have hred : LayoutManager.computeLayout mgr (w0 :: rest) screen gap
            = (mgr, LayoutManager.computeStackLayout mgr.split_ratio (w0 :: rest) screen gap) := by
          unfold LayoutManager.computeLayout
          rw [hcl]
        rw [hred]
        refine ⟨⟨?_, ?_⟩, fun hx => ?_⟩
        · rw [stack_keys]
        · rw [stack_keys]; exact hnodup
        · exact absurd hx (by decide)
    | grid =>
        have hred : LayoutManager.computeLayout mgr (w0 :: rest) screen gap
            = (mgr, LayoutManager.computeGridLayout (w0 :: rest) screen gap) := by
          unfold LayoutManager.computeLayout
          rw [hcl]
        rw [hred]
        refine ⟨⟨?_, ?_⟩, fun hx => ?_⟩
        · rw [grid_keys]
        · rw [grid_keys]; exact hnodup
        · exact absurd hx (by decide)
    | spiral =>
        have hred : LayoutManager.computeLayout mgr (w0 :: rest) screen gap
            = (mgr, LayoutManager.computeSpiralLayout mgr.split_ratio (w0 :: rest) screen gap) := by
          unfold LayoutManager.computeLayout
          rw [hcl]
        rw [hred]
        refine ⟨⟨?_, ?_⟩, fun hx => ?_⟩
        · rw [spiral_keys]
        · rw [spiral_keys]; exact hnodup
        · exact absurd hx (by decide)
    | column =>
        have hred : LayoutManager.computeLayout mgr (w0 :: rest) screen gap
            = (mgr, LayoutManager.computeColumnLayout (w0 :: rest) screen gap) := by
          unfold LayoutManager.computeLayout
          rw [hcl]
        rw [hred]
        refine ⟨⟨?_, ?_⟩, fun hx => ?_⟩
        · rw [column_keys]
        · rw [column_keys]; exact hnodup
        · exact absurd hx (by decide)
    | bsp =>
        have hred2 : (LayoutManager.computeLayout mgr (w0 :: rest) screen gap).2
            = BSPNode.collectWindowRects gap (LayoutManager.bspRoot2 mgr w0 rest screen) := by
          unfold LayoutManager.computeLayout
          rw [hcl]
          rfl
        have hred1 : (LayoutManager.computeLayout mgr (w0 :: rest) screen gap).1.bsp_root
            = some (LayoutManager.bspRoot2 mgr w0 rest screen) := by
          unfold LayoutManager.computeLayout
          rw [hcl]
          rfl
        obtain ⟨hwU, hbU, hnU, hmemU⟩ := bspRoot2_spec mgr w0 rest screen hinv hnodup
        have hkeys : (BSPNode.collectWindowRects gap
            (LayoutManager.bspRoot2 mgr w0 rest screen)).map Prod.fst
            = BSPNode.treeIds (LayoutManager.bspRoot2 mgr w0 rest screen) :=
          BSPNode.collect_map_fst gap _ hwU
        have hfin : (BSPNode.treeIds (LayoutManager.bspRoot2 mgr w0 rest screen)).toFinset
            = ((w0 :: rest).map Window.id).toFinset := by
          apply Finset.ext
          intro a
          simp only [List.mem_toFinset]
          exact hmemU a
        rw [hred2]
        refine ⟨⟨?_, ?_⟩, fun _ => ?_⟩
        · rw [hkeys]; exact hfin
        · rw [hkeys]; exact hnU
        · exact ⟨LayoutManager.bspRoot2 mgr w0 rest screen, hred1, hfin, hnU⟩

/-- Witness for C4 at a fresh BSP manager over two windows. -/
theorem c4_layout_coverage_witness :
    (((LayoutManager.computeLayout c4Mgr cwWindows ⟨0, 0, 1000, 800⟩ 10).2.map
        Prod.fst).toFinset = (cwWindows.map Window.id).toFinset
      ∧ ((LayoutManager.computeLayout c4Mgr cwWindows ⟨0, 0, 1000, 800⟩ 10).2.map
        Prod.fst).Nodup)
    ∧ (c4Mgr.current_layout = .bsp →
        ∃ root, (LayoutManager.computeLayout c4Mgr cwWindows ⟨0, 0, 1000, 800⟩ 10).1.bsp_root
            = some root
          ∧ (BSPNode.treeIds root).toFinset = (cwWindows.map Window.id).toFinset
          ∧ (BSPNode.treeIds root).Nodup) :=
  c4_layout_coverage c4Mgr cwWindows ⟨0, 0, 1000, 800⟩ 10
    (by simp [c4Mgr]) (by simp [c4Mgr]) (by simp [cwWindows])
    (by simp [cwWindows]) trivial

/-! ## Claim C1 -/

/-- C1 — Self-move invisibility: for a WindowMoved event whose id is in the
programmatically_moving set, the handler removes the id from the set and
updates the stored rectangle and previous position silently; the snap manager
is untouched (no drag is started or ended, so the Snap Engine is not invoked)
and the outcome is the absorbed classification, which produces no DragResult
and issues no Window Control call. -/
theorem c1_self_move_invisibility (s : EngineState) (wid : ℕ) (r : Rect)
    (h : wid ∈ s.programmatically_moving) :
    wid ∉ (EngineState.windowMovedStep s wid r).1.programmatically_moving
    ∧ (EngineState.windowMovedStep s wid r).1.windows
        = EngineState.setWindowRect s.windows wid r
    ∧ (EngineState.windowMovedStep s wid r).1.previous_window_positions wid = some r
    ∧ (EngineState.windowMovedStep s wid r).1.snap = s.snap
    ∧ (EngineState.windowMovedStep s wid r).2 = .absorbed := by
  refine ⟨?_, ?_, ?_, ?_, ?_⟩ <;>
    simp [EngineState.windowMovedStep, h, EngineState.setPrev]

/-- Witness for C1 at the concrete state c1State. -/
theorem c1_self_move_invisibility_witness :
    9 ∉ (EngineState.windowMovedStep c1State 9 ⟨10, 10, 600, 400⟩).1.programmatically_moving
    ∧ (EngineState.windowMovedStep c1State 9 ⟨10, 10, 600, 400⟩).1.windows
        = EngineState.setWindowRect c1State.windows 9 ⟨10, 10, 600, 400⟩
    ∧ (EngineState.windowMovedStep c1State 9 ⟨10, 10, 600, 400⟩).1.previous_window_positions 9
        = some ⟨10, 10, 600, 400⟩
    ∧ (EngineState.windowMovedStep c1State 9 ⟨10, 10, 600, 400⟩).1.snap = c1State.snap
    ∧ (EngineState.windowMovedStep c1State 9 ⟨10, 10, 600, 400⟩).2 = .absorbed :=
  c1_self_move_invisibility c1State 9 ⟨10, 10, 600, 400⟩ (by decide)

/-! ## Claim C3 -/

set_option maxRecDepth 4000 in
/-- C3 — Two-window BSP split: seeding the empty tree with window 1 over
(0,0,1000,800) and then inserting window 2 with split_ratio 0.5 yields, at
gap 10, the rectangles (5,5,490,790) for window 1 and (505,5,490,790) for
window 2. -/
theorem c3_two_window_bsp_split :
    ((c3Mgr.addWindow 1 c3Screen).addWindow 2 c3Screen).bsp_root.map
        (BSPNode.collectWindowRects 10)
      = some [(1, ⟨5, 5, 490, 790⟩), (2, ⟨505, 5, 490, 790⟩)] := by
  with_unfolding_all decide

/-! ## Claim C6 -/

/-- C6 — Sub-threshold drag restore: with an active drag state, a drag whose
duration is below 100 ms or whose squared origin distance is below the squared
threshold ends in ReturnToOriginal of the initial rectangle (for a
nonnegative threshold, distance below threshold is exactly squared distance
below squared threshold). -/
theorem c6_sub_threshold_drag_restore (m : SnapManager) (now wid : ℕ)
    (finalRect : Rect) (ws : List Window) (ds : WindowDragState)
    (hds : m.window_drag_states wid = some ds)
    (hthr : 0 ≤ m.snap_threshold)
    (h : now - ds.drag_start_time < 100
        ∨ SnapManager.dragDistanceSq ds.initial_rect finalRect < m.snap_threshold ^ 2) :
    (m.endWindowDrag now wid finalRect ws).1 = .returnToOriginal ds.initial_rect := by
  have hcond : ¬(100 < now - ds.drag_start_time
      ∧ sqrtCmpGT (SnapManager.dragDistanceSq ds.initial_rect finalRect) m.snap_threshold) := by
    rcases h with h | h
    · exact fun hc => absurd hc.1 (by omega)
    · intro hc
      have := hc.2
      simp only [sqrtCmpGT, Bool.or_eq_true, decide_eq_true_eq] at this
      rcases this with h2 | h2
      · exact absurd h2 (not_lt.mpr hthr)
      · exact absurd h2 (not_lt.mpr (le_of_lt h))
  simp [SnapManager.endWindowDrag, hds, hcond]

/-- Witness for C6: the window is released 30 px away (Δ = (18,24)) after
60 ms and is restored to its initial rectangle. -/
theorem c6_sub_threshold_drag_restore_witness :
    (c6Manager.endWindowDrag 60 7 ⟨118, 124, 400, 300⟩ []).1
      = .returnToOriginal ⟨100, 100, 400, 300⟩ :=
  c6_sub_threshold_drag_restore c6Manager 60 7 ⟨118, 124, 400, 300⟩ []
    ⟨7, ⟨100, 100, 400, 300⟩, true, 0⟩ (by with_unfolding_all decide)
    (by with_unfolding_all decide) (by left; decide)

/-! ## Claim C8 -/

/-- C8 counterexample: at gap 10 on screen (0,0,100,100) the Monocle mode
assigns window 1 the rectangle (10,10,80,80), which is not the full screen
rectangle. -/
theorem c8_counterexample :
    LayoutManager.computeMonocleLayout [c8Window] ⟨0, 0, 100, 100⟩ 10
        = [(1, ⟨10, 10, 80, 80⟩)]
    ∧ (⟨10, 10, 80, 80⟩ : Rect) ≠ ⟨0, 0, 100, 100⟩ := by
  with_unfolding_all decide

/-- C8 amended — Monocle layout: every input window is assigned one common
rectangle, namely the screen rectangle inset by the gap on all four sides. -/
theorem c8_monocle_gap_inset (windows : List Window) (screen : Rect) (gap : ℚ)
    (w : Window) (hw : w ∈ windows) :
    (w.id, (⟨screen.x + gap, screen.y + gap,
             screen.width - 2 * gap, screen.height - 2 * gap⟩ : Rect))
      ∈ LayoutManager.computeMonocleLayout windows screen gap := by
  cases windows with
  | nil => cases hw
  | cons a l =>
      simpa [LayoutManager.computeMonocleLayout] using
        List.mem_map_of_mem
          (fun w : Window => (w.id,
            (⟨screen.x + gap, screen.y + gap,
              screen.width - 2 * gap, screen.height - 2 * gap⟩ : Rect))) hw

/-- Witness for the amended C8 at two windows on screen (0,0,1000,800) with
gap 10. -/
theorem c8_monocle_gap_inset_witness :
    ((2 : ℕ), (⟨10, 10, 980, 780⟩ : Rect))
      ∈ LayoutManager.computeMonocleLayout
          [⟨2, "a", "x", 3, ⟨0, 0, 100, 100⟩, false, false, 1⟩,
           ⟨5, "b", "y", 4, ⟨0, 0, 200, 100⟩, false, false, 1⟩]
          ⟨0, 0, 1000, 800⟩ 10 := by
  have h := c8_monocle_gap_inset
    [⟨2, "a", "x", 3, ⟨0, 0, 100, 100⟩, false, false, 1⟩,
     ⟨5, "b", "y", 4, ⟨0, 0, 200, 100⟩, false, false, 1⟩]
    ⟨0, 0, 1000, 800⟩ 10 ⟨2, "a", "x", 3, ⟨0, 0, 100, 100⟩, false, false, 1⟩
    (by simp)
  norm_num at h
  exact h

/-! ## Claim C10 -/

/-- C10 — Moving an unknown window: when neither the cache nor the refreshed
cache holds an accessibility element for the id, move_window performs no
set_window_rect call and returns Ok. -/
theorem c10_move_unknown_window_is_ok (cachePre cachePost : ℕ → Option ℕ)
    (setR : ℕ → Rect → Except String Unit) (wid : ℕ) (r : Rect)
    (hpre : cachePre wid = none) (hpost : cachePost wid = none) :
    axMoveWindow cachePre cachePost setR wid r = (Except.ok (), []) := by
  simp [axMoveWindow, axFindWindowElement, hpre, hpost]

/-- Witness for C10 with empty caches. -/
theorem c10_move_unknown_window_is_ok_witness :
    axMoveWindow (fun _ => none) (fun _ => none)
        (fun _ _ => Except.error "host") 42 ⟨0, 0, 100, 100⟩
      = (Except.ok (), []) :=
  c10_move_unknown_window_is_ok (fun _ => none) (fun _ => none)
    (fun _ _ => Except.error "host") 42 ⟨0, 0, 100, 100⟩ rfl rfl

/-! ## Claim C2, counterexample part -/

/-- C2 counterexample: for the unsolicited 10 px move of window 1, the
handler only records the new rectangle and issues no Window Control call,
whereas the claimed treatment — the Snap Engine's end-of-drag procedure with
initial_rect equal to the previously stored rectangle — yields
ReturnToOriginal (the 10 px distance is below the 50 px threshold, whatever
the drag duration; 500 ms is used here), whose execution moves the window. -/
theorem c2_counterexample :
    (EngineState.windowMovedStep c2State 1 c2New).2 = .immediate .recordOnly
    ∧ EngineState.ImmediateAction.issuesWindowControlCall .recordOnly = false
    ∧ specUnsolicitedDragResult (SnapManager.new c2Screen 50) 1 c2Prev c2New 0 500 [c2Win]
        = .returnToOriginal c2Prev
    ∧ DragResult.executionIssuesMove (.returnToOriginal c2Prev) = true := by
  refine ⟨?_, rfl, ?_, rfl⟩ <;> with_unfolding_all decide

/-! ## Claim C2, amended part -/

/-- C2 amended — Unsolicited WindowMoved events: when the id is neither in
programmatically_moving nor in user_dragging_windows, the handler records the
new rectangle in the world model and the previous-position map, never touches
the snap manager (so the Snap Engine's end-of-drag procedure is not invoked
and no DragResult is produced), and decides as follows: with no previously
stored rectangle, or with a move of at most 20 px from it, nothing further
happens; for a larger move the snap zones at the new center are consulted —
the center zone swaps with the window under the center or returns the window
to its previously stored rectangle, an edge or corner zone snaps unless the
snap rectangle is within 10 px in every component (then the window stays
put), and outside every zone the window returns to its previously stored
rectangle. -/
theorem c2_unsolicited_immediate_positioning (s : EngineState) (wid : ℕ) (r : Rect)
    (h1 : wid ∉ s.programmatically_moving) (h2 : wid ∉ s.user_dragging_windows) :
    (EngineState.windowMovedStep s wid r).1.windows
        = EngineState.setWindowRect s.windows wid r
    ∧ (EngineState.windowMovedStep s wid r).1.previous_window_positions
        = EngineState.setPrev s.previous_window_positions wid r
    ∧ (EngineState.windowMovedStep s wid r).1.snap = s.snap
    ∧ (s.previous_window_positions wid = none →
        (EngineState.windowMovedStep s wid r).2 = .immediate .recordOnly)
    ∧ (∀ prev, s.previous_window_positions wid = some prev →
        sqrtCmpGT (SnapManager.dragDistanceSq prev r) 20 = false →
        (EngineState.windowMovedStep s wid r).2 = .immediate .recordOnly)
    ∧ (∀ prev, s.previous_window_positions wid = some prev →
        sqrtCmpGT (SnapManager.dragDistanceSq prev r) 20 = true →
        (EngineState.windowMovedStep s wid r).2 = .immediate
          (match s.snap.findZoneAtPoint (r.x + r.width / 2) (r.y + r.height / 2) with
           | some .center =>
               match SnapManager.findWindowUnderDrag wid r
                   ((EngineState.windowMovedStep s wid r).1.windows.filter (fun w =>
                     w.workspace_id
                         = (EngineState.windowMovedStep s wid r).1.getEffectiveCurrentWorkspace
                       && !w.is_minimized)) with
               | some target => .swapWith target
               | none => .returnTo prev
           | some _ =>
               match s.snap.findSnapTarget r with
               | some snapRect =>
                   if 10 < |snapRect.x - r.x| ∨ 10 < |snapRect.y - r.y|
                       ∨ 10 < |snapRect.width - r.width|
                       ∨ 10 < |snapRect.height - r.height| then
                     .snapMove snapRect
                   else .keepInPlace
               | none => .keepInPlace
           | none => .returnTo prev)) := by
  have hq : EngineState.windowMovedStep s wid r
      = ((EngineState.immediatePositioning s wid r).1,
         .immediate (EngineState.immediatePositioning s wid r).2) := by
    unfold EngineState.windowMovedStep
    rw [if_neg h1, if_neg h2]
  have hfst : (EngineState.immediatePositioning s wid r).1
      = { s with previous_window_positions := EngineState.setPrev s.previous_window_positions wid r,
                 windows := EngineState.setWindowRect s.windows wid r } := by
    unfold EngineState.immediatePositioning
    split <;> rfl
  have hsnd : (EngineState.immediatePositioning s wid r).2
      = EngineState.immediateDecision s (EngineState.immediatePositioning s wid r).1 wid r := by
    conv_lhs => unfold EngineState.immediatePositioning
    rw [if_neg h2, hfst]
  refine ⟨?_, ?_, ?_, ?_, ?_, ?_⟩
  · rw [hq, hfst]
  · rw [hq, hfst]
  · rw [hq, hfst]
  · intro hp
    rw [hq, hsnd]
    unfold EngineState.immediateDecision
    rw [hp]
  · intro prev hp hd
    rw [hq, hsnd]
    unfold EngineState.immediateDecision
    rw [hp]
    simp only [hd, Bool.false_eq_true, if_false]
  · intro prev hp hd
    rw [hq, hsnd]
    conv_lhs => unfold EngineState.immediateDecision
    rw [hp]
    simp only [hd, if_true]

/-- Witness for the amended C2 at c2WitnessState. -/
theorem c2_unsolicited_immediate_positioning_witness :
    (EngineState.windowMovedStep c2WitnessState 3 ⟨6, 0, 300, 200⟩).1.windows
        = EngineState.setWindowRect c2WitnessState.windows 3 ⟨6, 0, 300, 200⟩
    ∧ (EngineState.windowMovedStep c2WitnessState 3 ⟨6, 0, 300, 200⟩).2
        = .immediate .recordOnly := by
  obtain ⟨ha, -, -, -, hb, -⟩ :=
    c2_unsolicited_immediate_positioning c2WitnessState 3 ⟨6, 0, 300, 200⟩
      (by with_unfolding_all decide) (by with_unfolding_all decide)
  exact ⟨ha, hb ⟨0, 0, 300, 200⟩ (by with_unfolding_all decide)
    (by with_unfolding_all decide)⟩

/-! ## Claim C9 -/

/-- Behaviour of one maxByKey fold step: the stored element has the largest
key seen, ties keeping the newer element. -/
theorem maxByKeyStep_cases {α : Type} (key : α → ℕ) (acc : Option α) (a : α) (c : α)
    (hc : EngineState.maxByKeyStep key acc a = some c) :
    key a ≤ key c ∧ (c = a ∨ acc = some c) ∧ (∀ b, acc = some b → key b ≤ key c) := by
  cases acc with
  | none =>
      unfold EngineState.maxByKeyStep at hc
      cases hc
      exact ⟨le_refl _, Or.inl rfl, by simp⟩
  | some b =>
      unfold EngineState.maxByKeyStep at hc
      change (if key b ≤ key a then some a else some b) = some c at hc
      by_cases hba : key b ≤ key a
      · rw [if_pos hba] at hc
        cases hc
        exact ⟨le_refl _, Or.inl rfl, fun b2 hb2 => by cases hb2; exact hba⟩
      · rw [if_neg hba] at hc
        cases hc
        exact ⟨le_of_not_le hba, Or.inr rfl, fun b2 hb2 => by cases hb2; exact le_refl _⟩

/-- A maxByKey fold step always stores something. -/
theorem maxByKeyStep_isSome {α : Type} (key : α → ℕ) (acc : Option α) (a : α) :
    (EngineState.maxByKeyStep key acc a).isSome := by
  cases acc with
  | none => rfl
  | some b =>
      unfold EngineState.maxByKeyStep
      show (if key b ≤ key a then some a else some b).isSome = true
      by_cases hba : key b ≤ key a
      · rw [if_pos hba]; rfl
      · rw [if_neg hba]; rfl

/-- The maxByKey fold result comes from the list or the accumulator, and its
key dominates both. -/
theorem maxByKey_fold_spec {α : Type} (key : α → ℕ) :
    ∀ (l : List α) (acc : Option α) (x : α),
      l.foldl (EngineState.maxByKeyStep key) acc = some x →
      (x ∈ l ∨ acc = some x)
      ∧ (∀ y ∈ l, key y ≤ key x)
      ∧ (∀ b, acc = some b → key b ≤ key x) := by
  intro l
  induction l with
  | nil =>
      intro acc x h
      simp only [List.foldl_nil] at h
      refine ⟨Or.inr h, by simp, fun b hb => ?_⟩
      rw [h] at hb
      cases hb
      exact le_refl _
  | cons a l ih =>
      intro acc x h
      simp only [List.foldl_cons] at h
      obtain ⟨h1, h2, h3⟩ := ih _ x h
      obtain ⟨c, hc⟩ := Option.isSome_iff_exists.mp (maxByKeyStep_isSome key acc a)
      obtain ⟨hac, hmem, hdom⟩ := maxByKeyStep_cases key acc a c hc
      have hcx : key c ≤ key x := h3 c hc
      refine ⟨?_, ?_, ?_⟩
      · rcases h1 with hx | hx
        · exact Or.inl (List.mem_cons_of_mem _ hx)
        · obtain ⟨-, hm, -⟩ := maxByKeyStep_cases key acc a x hx
          rcases hm with hm | hm
          · exact Or.inl (hm ▸ List.mem_cons_self _ _)
          · exact Or.inr hm
      · intro y hy
        rcases List.mem_cons.mp hy with hy | hy
        · subst hy
          exact le_trans hac hcx
        · exact h2 y hy
      · intro b hb
        exact le_trans (hdom b hb) hcx

/-- A maxByKey fold starting from a some accumulator stays some. -/
theorem maxByKey_fold_isSome {α : Type} (key : α → ℕ) :
    ∀ (l : List α) (acc : Option α), acc.isSome →
      (l.foldl (EngineState.maxByKeyStep key) acc).isSome := by
  intro l
  induction l with
  | nil => intro acc h; exact h
  | cons a l ih =>
      intro acc _
      simp only [List.foldl_cons]
      exact ih _ (maxByKeyStep_isSome key acc a)

/-- C9 — Effective-workspace fallback: after the refresh step processes a raw
host report of workspace 0 (which get_current_workspace maps to 1), the
effective workspace is nonzero whenever every stored window carries a nonzero
workspace id, and it follows the fallback chain: the focused window's
workspace when one exists; with no focused window, a workspace whose count of
non-minimized windows is maximal; and 1 when there are no windows at all. -/
theorem c9_effective_workspace_fallback (s : EngineState)
    (hws : ∀ w ∈ s.windows, w.workspace_id ≠ 0) :
    EngineState.getEffectiveCurrentWorkspace (EngineState.applyWorkspaceRefresh s 0) ≠ 0
    ∧ (∀ f, s.windows.find? (fun w => w.is_focused) = some f →
        EngineState.getEffectiveCurrentWorkspace (EngineState.applyWorkspaceRefresh s 0)
          = f.workspace_id)
    ∧ (s.windows.find? (fun w => w.is_focused) = none →
        s.windows.filter (fun w => !w.is_minimized) = [] →
        EngineState.getEffectiveCurrentWorkspace (EngineState.applyWorkspaceRefresh s 0) = 1)
    ∧ (s.windows.find? (fun w => w.is_focused) = none →
        ∀ v ∈ s.windows.filter (fun w => !w.is_minimized),
          EngineState.workspaceCount (s.windows.filter (fun w => !w.is_minimized))
              v.workspace_id
            ≤ EngineState.workspaceCount (s.windows.filter (fun w => !w.is_minimized))
              (EngineState.getEffectiveCurrentWorkspace
                (EngineState.applyWorkspaceRefresh s 0))) := by
  have hfoc : (EngineState.applyWorkspaceRefresh s 0).focusedWindow
      = s.windows.find? (fun w => w.is_focused) := rfl
  refine ⟨?_, ?_, ?_, ?_⟩
  · unfold EngineState.getEffectiveCurrentWorkspace
    rw [hfoc]
    cases hf : s.windows.find? (fun w => w.is_focused) with
    | some f =>
        have hmem := List.mem_of_find?_eq_some hf
        exact hws f hmem
    | none =>
        simp only
        cases hmax : EngineState.maxByKey
            (EngineState.workspaceCount
              ((EngineState.applyWorkspaceRefresh s 0).windows.filter (fun w => !w.is_minimized)))
            ((((EngineState.applyWorkspaceRefresh s 0).windows.filter
                (fun w => !w.is_minimized)).map Window.workspace_id).dedup) with
        | some ws =>
            obtain ⟨hmem, -, -⟩ := maxByKey_fold_spec _ _ _ _ hmax
            rcases hmem with hmem | hmem
            · rw [List.mem_dedup] at hmem
              obtain ⟨v, hv, hveq⟩ := List.mem_map.mp hmem
              have : v ∈ s.windows := List.mem_of_mem_filter hv
              exact hveq ▸ hws v this
            · cases hmem
        | none =>
            simp only [EngineState.applyWorkspaceRefresh, EngineState.hostReportedWorkspace]
            norm_num
  · intro f hf
    unfold EngineState.getEffectiveCurrentWorkspace
    rw [hfoc, hf]
  · intro hf hempty
    unfold EngineState.getEffectiveCurrentWorkspace
    rw [hfoc, hf]
    have : (EngineState.applyWorkspaceRefresh s 0).windows.filter (fun w => !w.is_minimized)
        = [] := hempty
    simp only [this]
    rfl
  · intro hf v hv
    unfold EngineState.getEffectiveCurrentWorkspace
    rw [hfoc, hf]
    simp only
    cases hmax : EngineState.maxByKey
        (EngineState.workspaceCount
          ((EngineState.applyWorkspaceRefresh s 0).windows.filter (fun w => !w.is_minimized)))
        ((((EngineState.applyWorkspaceRefresh s 0).windows.filter
            (fun w => !w.is_minimized)).map Window.workspace_id).dedup) with
    | some ws =>
        obtain ⟨-, hle, -⟩ := maxByKey_fold_spec _ _ _ _ hmax
        exact hle v.workspace_id (List.mem_dedup.mpr (List.mem_map_of_mem _ hv))
    | none =>
        exfalso
        have hvmem : v.workspace_id ∈
            (((EngineState.applyWorkspaceRefresh s 0).windows.filter
              (fun w => !w.is_minimized)).map Window.workspace_id).dedup :=
          List.mem_dedup.mpr (List.mem_map_of_mem _ hv)
        rcases hlist : (((EngineState.applyWorkspaceRefresh s 0).windows.filter
            (fun w => !w.is_minimized)).map Window.workspace_id).dedup with _ | ⟨a, l⟩
        · rw [hlist] at hvmem; cases hvmem
        · rw [hlist] at hmax
          unfold EngineState.maxByKey at hmax
          simp only [List.foldl_cons] at hmax
          have := maxByKey_fold_isSome
            (EngineState.workspaceCount
              ((EngineState.applyWorkspaceRefresh s 0).windows.filter (fun w => !w.is_minimized)))
            l _ (maxByKeyStep_isSome
              (EngineState.workspaceCount
                ((EngineState.applyWorkspaceRefresh s 0).windows.filter
                  (fun w => !w.is_minimized))) none a)
          rw [hmax] at this
          cases this

/-- Witness for C9 at c9State. -/
theorem c9_effective_workspace_fallback_witness :
    EngineState.getEffectiveCurrentWorkspace (EngineState.applyWorkspaceRefresh c9State 0) ≠ 0 :=
  (c9_effective_workspace_fallback c9State (by with_unfolding_all decide)).1

/-! ## Claim C7 -/

/-- A pickNearest fold step keeps a some accumulator some (a none result can
only arise from a none accumulator). -/
theorem pickNearestStep_isSome (d : Direction) (fc : ℚ × ℚ) (acc : Option Window)
    (w : Window) (hacc : acc.isSome) :
    (EngineState.pickNearestStep d fc acc w).isSome := by
  unfold EngineState.pickNearestStep
  cases acc with
  | none => cases hacc
  | some b =>
      by_cases hdir : EngineState.inDirection d fc (EngineState.windowCenter w) = true
      · rw [if_pos hdir]
        show (if EngineState.distSqPt fc (EngineState.windowCenter w)
            < EngineState.distSqPt fc (EngineState.windowCenter b)
            then some w else some b).isSome = true
        by_cases hlt : EngineState.distSqPt fc (EngineState.windowCenter w)
            < EngineState.distSqPt fc (EngineState.windowCenter b)
        · rw [if_pos hlt]; rfl
        · rw [if_neg hlt]; rfl
      · rw [if_neg hdir]; rfl

/-- A pickNearest fold step on an in-direction window always stores
something. -/
theorem pickNearestStep_isSome_of_inDir (d : Direction) (fc : ℚ × ℚ)
    (acc : Option Window) (w : Window)
    (hdir : EngineState.inDirection d fc (EngineState.windowCenter w) = true) :
    (EngineState.pickNearestStep d fc acc w).isSome := by
  unfold EngineState.pickNearestStep
  rw [if_pos hdir]
  cases acc with
  | none => rfl
  | some b =>
      show (if EngineState.distSqPt fc (EngineState.windowCenter w)
          < EngineState.distSqPt fc (EngineState.windowCenter b)
          then some w else some b).isSome = true
      by_cases hlt : EngineState.distSqPt fc (EngineState.windowCenter w)
          < EngineState.distSqPt fc (EngineState.windowCenter b)
      · rw [if_pos hlt]; rfl
      · rw [if_neg hlt]; rfl

/-- Behaviour of one pickNearest fold step: the stored window either is the
new in-direction window or comes from the accumulator, and it is never
farther than either. -/
theorem pickNearestStep_cases (d : Direction) (fc : ℚ × ℚ) (acc : Option Window)
    (w x : Window) (hx : EngineState.pickNearestStep d fc acc w = some x) :
    (x = w ∧ EngineState.inDirection d fc (EngineState.windowCenter w) = true ∨ acc = some x)
    ∧ (∀ b, acc = some b →
        EngineState.distSqPt fc (EngineState.windowCenter x)
          ≤ EngineState.distSqPt fc (EngineState.windowCenter b))
    ∧ (EngineState.inDirection d fc (EngineState.windowCenter w) = true →
        EngineState.distSqPt fc (EngineState.windowCenter x)
          ≤ EngineState.distSqPt fc (EngineState.windowCenter w)) := by
  unfold EngineState.pickNearestStep at hx
  by_cases hdir : EngineState.inDirection d fc (EngineState.windowCenter w) = true
  · rw [if_pos hdir] at hx
    cases acc with
    | none =>
        cases hx
        exact ⟨Or.inl ⟨rfl, hdir⟩, by simp, fun _ => le_refl _⟩
    | some b =>
        change (if EngineState.distSqPt fc (EngineState.windowCenter w)
            < EngineState.distSqPt fc (EngineState.windowCenter b) then some w else some b)
            = some x at hx
        by_cases hlt : EngineState.distSqPt fc (EngineState.windowCenter w)
            < EngineState.distSqPt fc (EngineState.windowCenter b)
        · rw [if_pos hlt] at hx
          cases hx
          exact ⟨Or.inl ⟨rfl, hdir⟩,
            fun c hc => by cases hc; exact le_of_lt hlt, fun _ => le_refl _⟩
        · rw [if_neg hlt] at hx
          cases hx
          exact ⟨Or.inr rfl, fun c hc => by cases hc; exact le_refl _,
            fun _ => le_of_not_lt hlt⟩
  · rw [if_neg hdir] at hx
    exact ⟨Or.inr hx, fun c hc => by rw [hx] at hc; cases hc; exact le_refl _,
      fun hd => absurd hd hdir⟩

/-- The pickNearest fold only ever stores in-direction windows, its result
comes from the list or the accumulator, and it minimizes the Euclidean
distance among the in-direction windows of the list while dominating the
accumulator. -/
theorem pickNearest_fold_spec (d : Direction) (fc : ℚ × ℚ) :
    ∀ (l : List Window) (acc : Option Window) (x : Window),
      l.foldl (EngineState.pickNearestStep d fc) acc = some x →
      (x ∈ l ∧ EngineState.inDirection d fc (EngineState.windowCenter x) = true
        ∨ acc = some x)
      ∧ (∀ b, acc = some b →
          EngineState.distSqPt fc (EngineState.windowCenter x)
            ≤ EngineState.distSqPt fc (EngineState.windowCenter b))
      ∧ (∀ c ∈ l, EngineState.inDirection d fc (EngineState.windowCenter c) = true →
          EngineState.distSqPt fc (EngineState.windowCenter x)
            ≤ EngineState.distSqPt fc (EngineState.windowCenter c)) := by
  intro l
  induction l with
  | nil =>
      intro acc x h
      simp only [List.foldl_nil] at h
      refine ⟨Or.inr h, fun b hb => ?_, by simp⟩
      rw [h] at hb
      cases hb
      exact le_refl _
  | cons a l ih =>
      intro acc x h
      simp only [List.foldl_cons] at h
      obtain ⟨h1, h2, h3⟩ := ih _ x h
      refine ⟨?_, ?_, ?_⟩
      · rcases h1 with hx | hx
        · exact Or.inl ⟨List.mem_cons_of_mem _ hx.1, hx.2⟩
        · obtain ⟨hm, -, -⟩ := pickNearestStep_cases d fc acc a x hx
          rcases hm with ⟨rfl, hdir⟩ | hm
          · exact Or.inl ⟨List.mem_cons_self _ _, hdir⟩
          · exact Or.inr hm
      · intro b hb
        cases hacc : EngineState.pickNearestStep d fc acc a with
        | none =>
            exfalso
            have := pickNearestStep_isSome d fc acc a (by rw [hb]; rfl)
            rw [hacc] at this
            cases this
        | some c =>
            obtain ⟨-, hdom, -⟩ := pickNearestStep_cases d fc acc a c hacc
            exact le_trans (h2 c hacc) (hdom b hb)
      · intro c hc hcdir
        rcases List.mem_cons.mp hc with hc | hc
        · subst hc
          cases hacc : EngineState.pickNearestStep d fc acc c with
          | none =>
              exfalso
              have := pickNearestStep_isSome_of_inDir d fc acc c hcdir
              rw [hacc] at this
              cases this
          | some e =>
              obtain ⟨-, -, hlast⟩ := pickNearestStep_cases d fc acc c e hacc
              exact le_trans (h2 e hacc) (hlast hcdir)
        · exact h3 c hc hcdir

/-- C7 amended — Directional selection: a window returned by
find_window_in_direction is a candidate (same effective workspace, not
minimized, not the focused window) whose center lies strictly in the chosen
half-plane and whose plain Euclidean distance from the focused center is
minimal among such candidates; no perpendicular weighting and no WindowId
tie-break are applied (ties keep the earlier window in iteration order). -/
theorem c7_directional_selection (s : EngineState) (d : Direction) (wid : ℕ)
    (h : EngineState.findWindowInDirection s d = some wid) :
    ∃ fw w, s.focusedWindow = some fw
      ∧ w ∈ s.directionCandidates fw.id
      ∧ w.id = wid
      ∧ EngineState.inDirection d (EngineState.windowCenter fw)
          (EngineState.windowCenter w) = true
      ∧ ∀ c ∈ s.directionCandidates fw.id,
          EngineState.inDirection d (EngineState.windowCenter fw)
              (EngineState.windowCenter c) = true →
          EngineState.distSqPt (EngineState.windowCenter fw) (EngineState.windowCenter w)
            ≤ EngineState.distSqPt (EngineState.windowCenter fw) (EngineState.windowCenter c) := by
  unfold EngineState.findWindowInDirection at h
  cases hf : s.focusedWindow with
  | none => rw [hf] at h; cases h
  | some fw =>
      rw [hf] at h
      change Option.map Window.id
          (EngineState.pickNearest d (EngineState.windowCenter fw)
            (s.directionCandidates fw.id)) = some wid at h
      cases hp : EngineState.pickNearest d (EngineState.windowCenter fw)
          (s.directionCandidates fw.id) with
      | none => rw [hp] at h; cases h
      | some w =>
          rw [hp] at h
          cases h
          unfold EngineState.pickNearest at hp
          obtain ⟨h1, -, h3⟩ :=
            pickNearest_fold_spec d (EngineState.windowCenter fw) _ none w hp
          rcases h1 with ⟨hmem, hdir⟩ | hm
          · exact ⟨fw, w, rfl, hmem, rfl, hdir, h3⟩
          · cases hm

/-- C7 counterexample: find_window_in_direction picks window 2 (candidate B,
nearer in plain Euclidean distance), although candidate A lies strictly in
the right half-plane with a strictly smaller spec-weighted distance — the
selection does not minimize the weighted distance the claim prescribes. -/
theorem c7_counterexample :
    EngineState.findWindowInDirection c7State .right = some 2
    ∧ specWeightedDistSq .right (EngineState.windowCenter c7F) (EngineState.windowCenter c7A)
        < specWeightedDistSq .right (EngineState.windowCenter c7F) (EngineState.windowCenter c7B)
    ∧ EngineState.inDirection .right (EngineState.windowCenter c7F)
        (EngineState.windowCenter c7A) = true
    ∧ c7A.id ≠ (2 : ℕ) := by
  with_unfolding_all decide

/-- Witness for the amended C7 at the concrete state c7State. -/
theorem c7_directional_selection_witness :
    ∃ fw w, c7State.focusedWindow = some fw
      ∧ w ∈ c7State.directionCandidates fw.id
      ∧ w.id = 2
      ∧ EngineState.inDirection .right (EngineState.windowCenter fw)
          (EngineState.windowCenter w) = true
      ∧ ∀ c ∈ c7State.directionCandidates fw.id,
          EngineState.inDirection .right (EngineState.windowCenter fw)
              (EngineState.windowCenter c) = true →
          EngineState.distSqPt (EngineState.windowCenter fw) (EngineState.windowCenter w)
            ≤ EngineState.distSqPt (EngineState.windowCenter fw) (EngineState.windowCenter c) :=
  c7_directional_selection c7State .right 2 (by with_unfolding_all decide)

/-! ## Claim C5: helper lemmas on zero-area intersections -/

/-- The overlap length vanishes whenever either interval is degenerate or the
intervals are separated in either order. -/
theorem interLen_eq_zero (a w b v : ℚ)
    (h : w ≤ 0 ∨ v ≤ 0 ∨ a + w ≤ b ∨ b + v ≤ a) : interLen a w b v = 0 := by
  have h1 := min_le_left (a + w) (b + v)
  have h2 := min_le_right (a + w) (b + v)
  have h3 := le_max_left a b
  have h4 := le_max_right a b
  unfold interLen
  rcases h with h | h | h | h <;> (apply max_eq_left; linarith)

/-- A zero horizontal overlap makes the intersection area zero. -/
theorem interArea_eq_zero_of_x (r s : Rect) (h : interLen r.x r.width s.x s.width = 0) :
    interArea r s = 0 := by
  unfold interArea
  rw [h, zero_mul]

/-- A zero vertical overlap makes the intersection area zero. -/
theorem interArea_eq_zero_of_y (r s : Rect) (h : interLen r.y r.height s.y s.height = 0) :
    interArea r s = 0 := by
  unfold interArea
  rw [h, mul_zero]

/-- Cells of a gap-separated row of equal length have zero mutual overlap. -/
theorem cellsep (base len g : ℚ) (hg : 0 ≤ g) (c c' : ℕ) (hne : c ≠ c') :
    interLen (base + (c : ℚ) * (len + g)) len (base + (c' : ℚ) * (len + g)) len = 0 := by
  rcases le_or_lt len 0 with hlen | hlen
  · exact interLen_eq_zero _ _ _ _ (Or.inl hlen)
  · rcases Nat.lt_or_ge c c' with hcc | hcc
    · apply interLen_eq_zero
      right; right; left
      have h1 : (c : ℚ) + 1 ≤ (c' : ℚ) := by exact_mod_cast hcc
      nlinarith [mul_le_mul_of_nonneg_right h1 (by linarith : (0:ℚ) ≤ len + g)]
    · have hcc2 : c' < c := lt_of_le_of_ne hcc (Ne.symm hne)
      apply interLen_eq_zero
      right; right; right
      have h1 : (c' : ℚ) + 1 ≤ (c : ℚ) := by exact_mod_cast hcc2
      nlinarith [mul_le_mul_of_nonneg_right h1 (by linarith : (0:ℚ) ≤ len + g)]

/-- Stacked rows of height `sh` whose cells are inset by half the gap have
zero mutual overlap. -/
theorem rowsep (y0 sh g : ℚ) (hg : 0 ≤ g) (i j : ℕ) (hij : i ≠ j) :
    interLen (y0 + (i : ℚ) * sh + g / 2) (sh - g)
      (y0 + (j : ℚ) * sh + g / 2) (sh - g) = 0 := by
  rcases le_or_lt (sh - g) 0 with hsh | hsh
  · exact interLen_eq_zero _ _ _ _ (Or.inl hsh)
  · rcases Nat.lt_or_ge i j with hcc | hcc
    · apply interLen_eq_zero
      right; right; left
      have h1 : (i : ℚ) + 1 ≤ (j : ℚ) := by exact_mod_cast hcc
      nlinarith [mul_le_mul_of_nonneg_right h1 (by linarith : (0:ℚ) ≤ sh)]
    · have hcc2 : j < i := lt_of_le_of_ne hcc (Ne.symm hij)
      apply interLen_eq_zero
      right; right; right
      have h1 : (j : ℚ) + 1 ≤ (i : ℚ) := by exact_mod_cast hcc2
      nlinarith [mul_le_mul_of_nonneg_right h1 (by linarith : (0:ℚ) ≤ sh)]

/-- Rectangles generated from the entry index alone are pairwise zero-overlap
as soon as the index-level rectangles are. -/
theorem pairwise_indexed_rects (l : List Window) (F : ℕ → Rect)
    (h : ∀ i j : ℕ, i < j → interArea (F i) (F j) = 0) :
    List.Pairwise (fun p q : ℕ × Rect => interArea p.2 q.2 = 0)
      (l.enum.map (fun p => (p.2.id, F p.1))) := by
  apply List.pairwise_iff_getElem.mpr
  intro i j hi hj hij
  simp only [List.getElem_map, List.getElem_enum]
  exact h i j hij

/-- Any two rectangles produced by the Stack layout have zero-area
intersection (for a nonnegative gap). -/
theorem stack_pairwise (ratio : ℚ) (windows : List Window) (screen : Rect) (gap : ℚ)
    (hg : 0 ≤ gap) :
    List.Pairwise (fun p q : ℕ × Rect => interArea p.2 q.2 = 0)
      (LayoutManager.computeStackLayout ratio windows screen gap) := by
  match windows with
  | [] => exact List.Pairwise.nil
  | [w] => exact List.pairwise_singleton _ _
  | w0 :: w1 :: rest =>
    have hdef : LayoutManager.computeStackLayout ratio (w0 :: w1 :: rest) screen gap
        = (w0.id, (⟨screen.x + gap / 2, screen.y + gap / 2,
             screen.width * ratio - gap, screen.height - gap⟩ : Rect)) ::
          (w1 :: rest).enum.map (fun p =>
            (p.2.id, (⟨screen.x + screen.width * ratio + gap / 2,
                       screen.y + (p.1 : ℚ) * (screen.height / (((w1 :: rest).length : ℕ) : ℚ))
                         + gap / 2,
                       (screen.width - screen.width * ratio) - gap,
                       screen.height / (((w1 :: rest).length : ℕ) : ℚ) - gap⟩ : Rect))) := rfl
    rw [hdef]
    refine List.pairwise_cons.mpr ⟨?_, ?_⟩
    · intro q hq
      rw [List.mem_map] at hq
      obtain ⟨p, hp, rfl⟩ := hq
      apply interArea_eq_zero_of_x
      apply interLen_eq_zero
      right; right; left
      show screen.x + gap / 2 + (screen.width * ratio - gap)
          ≤ screen.x + screen.width * ratio + gap / 2
      linarith
    · exact pairwise_indexed_rects (w1 :: rest)
        (fun i => ⟨screen.x + screen.width * ratio + gap / 2,
                   screen.y + (i : ℚ) * (screen.height / (((w1 :: rest).length : ℕ) : ℚ))
                     + gap / 2,
                   (screen.width - screen.width * ratio) - gap,
                   screen.height / (((w1 :: rest).length : ℕ) : ℚ) - gap⟩)
        (fun i j hij => interArea_eq_zero_of_y _ _
          (rowsep screen.y (screen.height / (((w1 :: rest).length : ℕ) : ℚ)) gap hg i j
            (Nat.ne_of_lt hij)))

/-- Any two rectangles produced by the Spiral layout have zero-area
intersection (for a nonnegative gap). -/
theorem spiral_pairwise (ratio : ℚ) (windows : List Window) (screen : Rect) (gap : ℚ)
    (hg : 0 ≤ gap) :
    List.Pairwise (fun p q : ℕ × Rect => interArea p.2 q.2 = 0)
      (LayoutManager.computeSpiralLayout ratio windows screen gap) := by
  match windows with
  | [] => exact List.Pairwise.nil
  | [w] => exact List.pairwise_singleton _ _
  | w0 :: w1 :: rest =>
    have hdef : LayoutManager.computeSpiralLayout ratio (w0 :: w1 :: rest) screen gap
        = (w0.id, (⟨screen.x + gap / 2, screen.y + gap / 2,
             screen.width * ratio - gap, screen.height - gap⟩ : Rect)) ::
          (w1 :: rest).enum.map (fun p =>
            (p.2.id, (⟨screen.x + screen.width * ratio + gap / 2,
                       screen.y + (p.1 : ℚ) * (screen.height / (((w1 :: rest).length : ℕ) : ℚ))
                         + gap / 2,
                       screen.width * (1 - ratio) - gap,
                       screen.height / (((w1 :: rest).length : ℕ) : ℚ) - gap⟩ : Rect))) := rfl
    rw [hdef]
    refine List.pairwise_cons.mpr ⟨?_, ?_⟩
    · intro q hq
      rw [List.mem_map] at hq
      obtain ⟨p, hp, rfl⟩ := hq
      apply interArea_eq_zero_of_x
      apply interLen_eq_zero
      right; right; left
      show screen.x + gap / 2 + (screen.width * ratio - gap)
          ≤ screen.x + screen.width * ratio + gap / 2
      linarith
    · exact pairwise_indexed_rects (w1 :: rest)
        (fun i => ⟨screen.x + screen.width * ratio + gap / 2,
                   screen.y + (i : ℚ) * (screen.height / (((w1 :: rest).length : ℕ) : ℚ))
                     + gap / 2,
                   screen.width * (1 - ratio) - gap,
                   screen.height / (((w1 :: rest).length : ℕ) : ℚ) - gap⟩)
        (fun i j hij => interArea_eq_zero_of_y _ _
          (rowsep screen.y (screen.height / (((w1 :: rest).length : ℕ) : ℚ)) gap hg i j
            (Nat.ne_of_lt hij)))

/-- Index-level non-overlap of the grid cells: two distinct entries differ in
column or in row, and the corresponding axis separates them. -/
theorem grid_cells_pairwise (X Y cw ch g : ℚ) (hg : 0 ≤ g) (cols : ℕ) (l : List Window) :
    List.Pairwise (fun p q : ℕ × Rect => interArea p.2 q.2 = 0)
      (l.enum.map (fun p =>
        (p.2.id, (⟨X + g + ((p.1 % cols : ℕ) : ℚ) * (cw + g),
                   Y + g + ((p.1 / cols : ℕ) : ℚ) * (ch + g), cw, ch⟩ : Rect)))) := by
  apply pairwise_indexed_rects l (fun i =>
    ⟨X + g + ((i % cols : ℕ) : ℚ) * (cw + g),
     Y + g + ((i / cols : ℕ) : ℚ) * (ch + g), cw, ch⟩)
  intro i j hij
  by_cases hcc : i % cols = j % cols
  · have hdd : i / cols ≠ j / cols := by
      intro hd
      apply Nat.ne_of_lt hij
      calc i = cols * (i / cols) + i % cols := (Nat.div_add_mod i cols).symm
        _ = cols * (j / cols) + j % cols := by rw [hcc, hd]
        _ = j := Nat.div_add_mod j cols
    exact interArea_eq_zero_of_y _ _ (cellsep (Y + g) ch g hg _ _ hdd)
  · exact interArea_eq_zero_of_x _ _ (cellsep (X + g) cw g hg _ _ hcc)

/-- Any two rectangles produced by the Grid layout have zero-area
intersection (for a nonnegative gap). -/
theorem grid_pairwise (windows : List Window) (screen : Rect) (gap : ℚ) (hg : 0 ≤ gap) :
    List.Pairwise (fun p q : ℕ × Rect => interArea p.2 q.2 = 0)
      (LayoutManager.computeGridLayout windows screen gap) := by
  match windows with
  | [] => exact List.Pairwise.nil
  | w :: ws =>
    exact grid_cells_pairwise screen.x screen.y
      ((screen.width - gap * ((LayoutManager.natCeilSqrt (w :: ws).length : ℕ) + 1 : ℚ))
        / ((LayoutManager.natCeilSqrt (w :: ws).length : ℕ) : ℚ))
      ((screen.height - gap
          * ((((w :: ws).length + LayoutManager.natCeilSqrt (w :: ws).length - 1)
              / LayoutManager.natCeilSqrt (w :: ws).length : ℕ) + 1 : ℚ))
        / ((((w :: ws).length + LayoutManager.natCeilSqrt (w :: ws).length - 1)
            / LayoutManager.natCeilSqrt (w :: ws).length : ℕ) : ℚ))
      gap hg (LayoutManager.natCeilSqrt (w :: ws).length) (w :: ws)

/-- Index-level non-overlap of the column cells. -/
theorem column_cells_pairwise (X Y ww hh g : ℚ) (hg : 0 ≤ g) (l : List Window) :
    List.Pairwise (fun p q : ℕ × Rect => interArea p.2 q.2 = 0)
      (l.enum.map (fun p =>
        (p.2.id, (⟨X + g + (p.1 : ℚ) * (ww + g), Y + g, ww, hh⟩ : Rect)))) := by
  apply pairwise_indexed_rects l (fun i => ⟨X + g + (i : ℚ) * (ww + g), Y + g, ww, hh⟩)
  intro i j hij
  exact interArea_eq_zero_of_x _ _ (cellsep (X + g) ww g hg i j (Nat.ne_of_lt hij))

/-- Any two rectangles produced by the Column layout have zero-area
intersection (for a nonnegative gap). -/
theorem column_pairwise (windows : List Window) (screen : Rect) (gap : ℚ) (hg : 0 ≤ gap) :
    List.Pairwise (fun p q : ℕ × Rect => interArea p.2 q.2 = 0)
      (LayoutManager.computeColumnLayout windows screen gap) := by
  match windows with
  | [] => exact List.Pairwise.nil
  | w :: ws =>
    exact column_cells_pairwise screen.x screen.y
      ((screen.width - gap * (((w :: ws).length : ℚ) + 1)) / (((w :: ws).length : ℕ) : ℚ))
      (screen.height - 2 * gap) gap hg (w :: ws)

/-- update_rect assigns exactly the requested rectangle to the node itself. -/
theorem BSPNode.rect_updateRect (re : Rect) (t : BSPNode) : (updateRect re t).rect = re := by
  cases t with
  | mk r sr hz w l r2 => cases l <;> cases r2 <;> rfl

/-- update_rect never touches a split ratio, so ratio bounds survive it. -/
theorem BSPNode.ratiosBounded_updateRect (re : Rect) (t : BSPNode)
    (h : ratiosBounded t = true) : ratiosBounded (updateRect re t) = true := by
  induction t using BSPNode.myInd generalizing re with
  | h r sr hz w l r2 ihl ihr =>
    cases l with
    | none =>
        cases r2 with
        | none => simpa [updateRect, ratiosBounded] using h
        | some rt => simpa [updateRect, ratiosBounded] using h
    | some lt =>
        cases r2 with
        | none => simpa [updateRect, ratiosBounded] using h
        | some rt =>
            simp only [ratiosBounded, Bool.and_eq_true] at h
            simp only [updateRect, ratiosBounded, Bool.and_eq_true]
            exact ⟨h.1, ihl lt rfl _ h.2.1, ihr rt rfl _ h.2.2⟩

/-- After update_rect both children of every inner node carry exactly the
rectangles dictated by the parent (on both-or-neither trees). -/
theorem BSPNode.consistent_updateRect (re : Rect) (t : BSPNode)
    (hb : biform t = true) : consistent (updateRect re t) = true := by
  induction t using BSPNode.myInd generalizing re with
  | h r sr hz w l r2 ihl ihr =>
    cases l with
    | none =>
        cases r2 with
        | none => simp [updateRect, consistent]
        | some rt => simp [biform] at hb
    | some lt =>
        cases r2 with
        | none => simp [biform] at hb
        | some rt =>
            simp only [biform, Bool.and_eq_true] at hb
            simp only [updateRect, consistent, Bool.and_eq_true]
            refine ⟨⟨?_, ?_⟩, ihl lt rfl _ hb.1, ihr rt rfl _ hb.2⟩
            · rw [beq_iff_eq, rect_updateRect]
            · rw [beq_iff_eq, rect_updateRect]

/-- insert_window keeps the rectangle of the node it starts from. -/
theorem BSPNode.rect_insert (wid : ℕ) (ratio : ℚ) (t : BSPNode) (d : ℕ) :
    (insertWindow wid ratio t d).rect = t.rect := by
  cases t with
  | mk r sr hz w l r2 =>
    cases l with
    | none =>
        cases r2 with
        | none =>
            cases w with
            | some x =>
                simp only [insertWindow]
                rw [rect_updateRect]
                rfl
            | none => rfl
        | some rt => rfl
    | some lt =>
        cases r2 with
        | none => rfl
        | some rt => rfl

/-- insert_window preserves parent-child rectangle consistency. -/
theorem BSPNode.consistent_insert (wid : ℕ) (ratio : ℚ) (t : BSPNode)
    (hc : consistent t = true) : ∀ d, consistent (insertWindow wid ratio t d) = true := by
  induction t using BSPNode.myInd with
  | h r sr hz w l r2 ihl ihr =>
    intro d
    cases l with
    | none =>
        cases r2 with
        | none =>
            cases w with
            | some x =>
                simp only [insertWindow]
                apply consistent_updateRect
                rfl
            | none => rfl
        | some rt =>
            simp only [insertWindow]
            have h2 : consistent rt = true := by simpa [consistent] using hc
            simpa [consistent] using ihr rt rfl h2 (d + 1)
    | some lt =>
        cases r2 with
        | none =>
            simp only [insertWindow]
            have h2 : consistent lt = true := by simpa [consistent] using hc
            simpa [consistent] using ihl lt rfl h2 (d + 1)
        | some rt =>
            simp only [insertWindow]
            simp only [consistent, Bool.and_eq_true] at hc
            simp only [consistent, Bool.and_eq_true]
            refine ⟨⟨hc.1.1, ?_⟩, hc.2.1, ihr rt rfl hc.2.2 (d + 1)⟩
            rw [beq_iff_eq, rect_insert]
            exact beq_iff_eq.mp hc.1.2

/-- insert_window with a ratio in [0, 1] keeps every stored ratio in [0, 1]. -/
theorem BSPNode.ratiosBounded_insert (wid : ℕ) (ratio : ℚ)
    (h0 : 0 ≤ ratio) (h1 : ratio ≤ 1) (t : BSPNode)
    (h : ratiosBounded t = true) : ∀ d, ratiosBounded (insertWindow wid ratio t d) = true := by
  induction t using BSPNode.myInd with
  | h r sr hz w l r2 ihl ihr =>
    intro d
    cases l with
    | none =>
        cases r2 with
        | none =>
            cases w with
            | some x =>
                simp only [insertWindow]
                apply ratiosBounded_updateRect
                simp only [newLeaf, ratiosBounded, Bool.and_eq_true, decide_eq_true_eq]
                refine ⟨⟨h0, h1⟩, ⟨?_, ?_⟩, ?_, ?_⟩ <;> norm_num
            | none => simpa [insertWindow, ratiosBounded] using h
        | some rt =>
            simp only [insertWindow]
            simp only [ratiosBounded, Bool.and_eq_true] at h ⊢
            exact ⟨h.1, ihr rt rfl h.2 (d + 1)⟩
    | some lt =>
        cases r2 with
        | none =>
            simp only [insertWindow]
            simp only [ratiosBounded, Bool.and_eq_true] at h ⊢
            exact ⟨h.1, ihl lt rfl h.2 (d + 1)⟩
        | some rt =>
            simp only [insertWindow]
            simp only [ratiosBounded, Bool.and_eq_true] at h ⊢
            exact ⟨h.1, h.2.1, ihr rt rfl h.2.2 (d + 1)⟩

/-- collapse_if_needed keeps every stored ratio in [0, 1]. -/
theorem BSPNode.ratiosBounded_collapse (t : BSPNode)
    (h : ratiosBounded t = true) : ratiosBounded (collapseIfNeeded t) = true := by
  cases t with
  | mk r sr hz w l r2 =>
    cases l with
    | none =>
        cases r2 with
        | none => simpa [collapseIfNeeded, ratiosBounded] using h
        | some rt =>
            simp only [ratiosBounded, Bool.and_eq_true, decide_eq_true_eq] at h
            simp only [collapseIfNeeded]
            by_cases hcr : countWindows rt = 0
            · simp [hcr, ratiosBounded, decide_eq_true_eq, h.1]
            · simp [hcr, h.2]
    | some lt =>
        cases r2 with
        | none =>
            simp only [ratiosBounded, Bool.and_eq_true, decide_eq_true_eq] at h
            simp only [collapseIfNeeded]
            by_cases hcl : countWindows lt = 0
            · simp [hcl, ratiosBounded, decide_eq_true_eq, h.1]
            · simp [hcl, h.2]
        | some rt =>
            simp only [ratiosBounded, Bool.and_eq_true, decide_eq_true_eq] at h
            simp only [collapseIfNeeded]
            by_cases hcl : countWindows lt = 0 <;> by_cases hcr : countWindows rt = 0
            · simp [hcl, hcr, ratiosBounded, decide_eq_true_eq, h.1]
            · simp [hcl, hcr, h.2.2]
            · simp [hcl, hcr, h.2.1]
            · simp [hcl, hcr, ratiosBounded, Bool.and_eq_true, decide_eq_true_eq,
                h.1, h.2.1, h.2.2]

/-- remove_window keeps every stored ratio in [0, 1]. -/
theorem BSPNode.ratiosBounded_remove (wid : ℕ) (t : BSPNode)
    (h : ratiosBounded t = true) : ratiosBounded (removeWindow t wid).1 = true := by
  induction t using BSPNode.myInd with
  | h r sr hz w l r2 ihl ihr =>
    cases l with
    | none =>
        cases r2 with
        | none =>
            by_cases hw2 : w = some wid
            · simpa [removeWindow, hw2, ratiosBounded] using h
            · simpa [removeWindow, hw2] using h
        | some rt =>
            simp only [removeWindow]
            simp only [ratiosBounded, Bool.and_eq_true] at h
            have hrb := ihr rt rfl h.2
            have hn : ratiosBounded (.mk r sr hz w none (some (removeWindow rt wid).1))
                = true := by
              simp only [ratiosBounded, Bool.and_eq_true]
              exact ⟨h.1, hrb⟩
            by_cases hq : (removeWindow rt wid).2 = true
            · simp only [hq, if_true]
              exact ratiosBounded_collapse _ hn
            · simp only [Bool.not_eq_true] at hq
              simp only [hq, Bool.false_eq_true, if_false]
              exact hn
    | some lt =>
        cases r2 with
        | none =>
            simp only [removeWindow]
            simp only [ratiosBounded, Bool.and_eq_true] at h
            have hlb := ihl lt rfl h.2
            have hn : ratiosBounded (.mk r sr hz w (some (removeWindow lt wid).1) none)
                = true := by
              simp only [ratiosBounded, Bool.and_eq_true]
              exact ⟨h.1, hlb⟩
            by_cases hq : (removeWindow lt wid).2 = true
            · simp only [hq, if_true]
              exact ratiosBounded_collapse _ hn
            · simp only [Bool.not_eq_true] at hq
              simp only [hq, Bool.false_eq_true, if_false]
              exact hn
        | some rt =>
            simp only [removeWindow]
            simp only [ratiosBounded, Bool.and_eq_true] at h
            have hlb := ihl lt rfl h.2.1
            have hrb := ihr rt rfl h.2.2
            have hn : ratiosBounded (.mk r sr hz w (some (removeWindow lt wid).1)
                (some (removeWindow rt wid).1)) = true := by
              simp only [ratiosBounded, Bool.and_eq_true]
              exact ⟨h.1, hlb, hrb⟩
            by_cases hq : ((removeWindow lt wid).2 || (removeWindow rt wid).2) = true
            · simp only [hq, if_true]
              exact ratiosBounded_collapse _ hn
            · simp only [Bool.not_eq_true] at hq
              simp only [hq, Bool.false_eq_true, if_false]
              exact hn

/-- The removal loop of the BSP sync keeps every stored ratio in [0, 1]. -/
theorem ratiosBounded_removeFold (ids : List ℕ) :
    ∀ (L : List ℕ) (t : BSPNode), BSPNode.ratiosBounded t = true →
      BSPNode.ratiosBounded (L.foldl
        (fun t wid => if wid ∈ ids then t else (BSPNode.removeWindow t wid).1) t) = true := by
  intro L
  induction L with
  | nil => intro t h; simpa using h
  | cons a L ih =>
      intro t h
      simp only [List.foldl_cons]
      by_cases ha : a ∈ ids
      · rw [if_pos ha]; exact ih t h
      · rw [if_neg ha]; exact ih _ (BSPNode.ratiosBounded_remove a t h)

/-- The insertion loop of the BSP sync keeps every stored ratio in [0, 1]. -/
theorem ratiosBounded_syncInsert (ratio : ℚ) (h0 : 0 ≤ ratio) (h1 : ratio ≤ 1) :
    ∀ (ws : List Window) (t : BSPNode), BSPNode.ratiosBounded t = true →
      BSPNode.ratiosBounded (LayoutManager.bspSyncInsert ratio ws t) = true := by
  intro ws
  induction ws with
  | nil => intro t h; simpa [LayoutManager.bspSyncInsert] using h
  | cons w ws ih =>
      intro t h
      have hcons : LayoutManager.bspSyncInsert ratio (w :: ws) t
          = LayoutManager.bspSyncInsert ratio ws
              (if BSPNode.containsWindow t w.id then t
               else BSPNode.insertWindow w.id ratio t 0) := rfl
      rw [hcons]
      by_cases hc : BSPNode.containsWindow t w.id = true
      · rw [if_pos hc]; exact ih t h
      · rw [if_neg hc]; exact ih _ (BSPNode.ratiosBounded_insert w.id ratio h0 h1 t h 0)

/-- The fresh-build loop keeps parent-child rectangle consistency. -/
theorem consistent_freshFold (ratio : ℚ) :
    ∀ (ws : List Window) (t : BSPNode), BSPNode.consistent t = true →
      BSPNode.consistent (ws.foldl
        (fun t w => BSPNode.insertWindow w.id ratio t 0) t) = true := by
  intro ws
  induction ws with
  | nil => intro t h; simpa using h
  | cons w ws ih =>
      intro t h
      simp only [List.foldl_cons]
      exact ih _ (BSPNode.consistent_insert w.id ratio t h 0)

/-- The fresh-build loop keeps every stored ratio in [0, 1]. -/
theorem ratiosBounded_freshFold (ratio : ℚ) (h0 : 0 ≤ ratio) (h1 : ratio ≤ 1) :
    ∀ (ws : List Window) (t : BSPNode), BSPNode.ratiosBounded t = true →
      BSPNode.ratiosBounded (ws.foldl
        (fun t w => BSPNode.insertWindow w.id ratio t 0) t) = true := by
  intro ws
  induction ws with
  | nil => intro t h; simpa using h
  | cons w ws ih =>
      intro t h
      simp only [List.foldl_cons]
      exact ih _ (BSPNode.ratiosBounded_insert w.id ratio h0 h1 t h 0)

/-- In a consistent tree with ratios in [0, 1] rooted at a rectangle of
nonpositive width, every collected rectangle has nonpositive width. -/
theorem BSPNode.collect_width_nonpos (g : ℚ) (hg : 0 ≤ g) (t : BSPNode) :
    biform t = true → consistent t = true → ratiosBounded t = true →
    t.rect.width ≤ 0 →
    ∀ p ∈ collectWindowRects g t, (p : ℕ × Rect).2.width ≤ 0 := by
  induction t using BSPNode.myInd with
  | h r sr hz w l r2 ihl ihr =>
    intro hb hc hr hw p hp
    cases w with
    | some wid =>
        simp only [collectWindowRects, List.mem_singleton] at hp
        subst hp
        have hw2 : r.width ≤ 0 := hw
        show r.width - g ≤ 0
        linarith
    | none =>
        cases l with
        | none =>
            cases r2 with
            | none => simp [collectWindowRects] at hp
            | some rt => simp [biform] at hb
        | some lt =>
            cases r2 with
            | none => simp [biform] at hb
            | some rt =>
                simp only [biform, Bool.and_eq_true] at hb
                simp only [consistent, Bool.and_eq_true, beq_iff_eq] at hc
                simp only [ratiosBounded, Bool.and_eq_true, decide_eq_true_eq] at hr
                have hw2 : r.width ≤ 0 := hw
                simp only [collectWindowRects, List.mem_append] at hp
                cases hz with
                | true =>
                    have hlw : lt.rect.width ≤ 0 := by
                      rw [hc.1.1]
                      show r.width * sr ≤ 0
                      exact mul_nonpos_of_nonpos_of_nonneg hw2 hr.1.1
                    have hrw : rt.rect.width ≤ 0 := by
                      rw [hc.1.2]
                      show r.width - r.width * sr ≤ 0
                      have hm : r.width * (1 - sr) ≤ 0 :=
                        mul_nonpos_of_nonpos_of_nonneg hw2 (by linarith [hr.1.2])
                      have he : r.width * (1 - sr) = r.width - r.width * sr := by ring
                      linarith
                    rcases hp with hp | hp
                    · exact ihl lt rfl hb.1 hc.2.1 hr.2.1 hlw p hp
                    · exact ihr rt rfl hb.2 hc.2.2 hr.2.2 hrw p hp
                | false =>
                    have hlw : lt.rect.width ≤ 0 := by
                      rw [hc.1.1]; exact hw2
                    have hrw : rt.rect.width ≤ 0 := by
                      rw [hc.1.2]; exact hw2
                    rcases hp with hp | hp
                    · exact ihl lt rfl hb.1 hc.2.1 hr.2.1 hlw p hp
                    · exact ihr rt rfl hb.2 hc.2.2 hr.2.2 hrw p hp

/-- In a consistent tree with ratios in [0, 1] rooted at a rectangle of
nonpositive height, every collected rectangle has nonpositive height. -/
theorem BSPNode.collect_height_nonpos (g : ℚ) (hg : 0 ≤ g) (t : BSPNode) :
    biform t = true → consistent t = true → ratiosBounded t = true →
    t.rect.height ≤ 0 →
    ∀ p ∈ collectWindowRects g t, (p : ℕ × Rect).2.height ≤ 0 := by
  induction t using BSPNode.myInd with
  | h r sr hz w l r2 ihl ihr =>
    intro hb hc hr hw p hp
    cases w with
    | some wid =>
        simp only [collectWindowRects, List.mem_singleton] at hp
        subst hp
        have hw2 : r.height ≤ 0 := hw
        show r.height - g ≤ 0
        linarith
    | none =>
        cases l with
        | none =>
            cases r2 with
            | none => simp [collectWindowRects] at hp
            | some rt => simp [biform] at hb
        | some lt =>
            cases r2 with
            | none => simp [biform] at hb
            | some rt =>
                simp only [biform, Bool.and_eq_true] at hb
                simp only [consistent, Bool.and_eq_true, beq_iff_eq] at hc
                simp only [ratiosBounded, Bool.and_eq_true, decide_eq_true_eq] at hr
                have hw2 : r.height ≤ 0 := hw
                simp only [collectWindowRects, List.mem_append] at hp
                cases hz with
                | true =>
                    have hlw : lt.rect.height ≤ 0 := by
                      rw [hc.1.1]; exact hw2
                    have hrw : rt.rect.height ≤ 0 := by
                      rw [hc.1.2]; exact hw2
                    rcases hp with hp | hp
                    · exact ihl lt rfl hb.1 hc.2.1 hr.2.1 hlw p hp
                    · exact ihr rt rfl hb.2 hc.2.2 hr.2.2 hrw p hp
                | false =>
                    have hlw : lt.rect.height ≤ 0 := by
                      rw [hc.1.1]
                      show r.height * sr ≤ 0
                      exact mul_nonpos_of_nonpos_of_nonneg hw2 hr.1.1
                    have hrw : rt.rect.height ≤ 0 := by
                      rw [hc.1.2]
                      show r.height - r.height * sr ≤ 0
                      have hm : r.height * (1 - sr) ≤ 0 :=
                        mul_nonpos_of_nonpos_of_nonneg hw2 (by linarith [hr.1.2])
                      have he : r.height * (1 - sr) = r.height - r.height * sr := by ring
                      linarith
                    rcases hp with hp | hp
                    · exact ihl lt rfl hb.1 hc.2.1 hr.2.1 hlw p hp
                    · exact ihr rt rfl hb.2 hc.2.2 hr.2.2 hrw p hp

/-- Horizontal bound: every collected rectangle either has nonpositive width
or lies within the horizontal extent of the node's rectangle. -/
theorem BSPNode.collect_bound_x (g : ℚ) (hg : 0 ≤ g) (t : BSPNode) :
    biform t = true → consistent t = true → ratiosBounded t = true →
    ∀ p ∈ collectWindowRects g t,
      (p : ℕ × Rect).2.width ≤ 0 ∨
        (t.rect.x ≤ p.2.x ∧ p.2.x + p.2.width ≤ t.rect.x + t.rect.width) := by
  induction t using BSPNode.myInd with
  | h r sr hz w l r2 ihl ihr =>
    intro hb hc hr p hp
    cases w with
    | some wid =>
        simp only [collectWindowRects, List.mem_singleton] at hp
        subst hp
        right
        constructor
        · show r.x ≤ r.x + g / 2
          linarith
        · show r.x + g / 2 + (r.width - g) ≤ r.x + r.width
          linarith
    | none =>
        cases l with
        | none =>
            cases r2 with
            | none => simp [collectWindowRects] at hp
            | some rt => simp [biform] at hb
        | some lt =>
            cases r2 with
            | none => simp [biform] at hb
            | some rt =>
                simp only [biform, Bool.and_eq_true] at hb
                simp only [consistent, Bool.and_eq_true, beq_iff_eq] at hc
                simp only [ratiosBounded, Bool.and_eq_true, decide_eq_true_eq] at hr
                simp only [collectWindowRects, List.mem_append] at hp
                cases hz with
                | true =>
                    rcases hp with hp | hp
                    · rcases ihl lt rfl hb.1 hc.2.1 hr.2.1 p hp with hX | hX
                      · exact Or.inl hX
                      · rw [hc.1.1] at hX
                        have hX1 : r.x ≤ p.2.x := hX.1
                        have hX2 : p.2.x + p.2.width ≤ r.x + r.width * sr := hX.2
                        rcases le_or_lt 0 r.width with hwid | hwid
                        · right
                          refine ⟨hX1, ?_⟩
                          show p.2.x + p.2.width ≤ r.x + r.width
                          nlinarith [mul_le_mul_of_nonneg_left hr.1.2 hwid]
                        · left
                          apply collect_width_nonpos g hg lt hb.1 hc.2.1 hr.2.1 ?_ p hp
                          rw [hc.1.1]
                          show r.width * sr ≤ 0
                          exact mul_nonpos_of_nonpos_of_nonneg (le_of_lt hwid) hr.1.1
                    · rcases ihr rt rfl hb.2 hc.2.2 hr.2.2 p hp with hX | hX
                      · exact Or.inl hX
                      · rw [hc.1.2] at hX
                        have hX1 : r.x + r.width * sr ≤ p.2.x := hX.1
                        have hX2 : p.2.x + p.2.width
                            ≤ r.x + r.width * sr + (r.width - r.width * sr) := hX.2
                        rcases le_or_lt 0 r.width with hwid | hwid
                        · right
                          constructor
                          · show r.x ≤ p.2.x
                            nlinarith [mul_nonneg hwid hr.1.1]
                          · show p.2.x + p.2.width ≤ r.x + r.width
                            linarith
                        · left
                          apply collect_width_nonpos g hg rt hb.2 hc.2.2 hr.2.2 ?_ p hp
                          rw [hc.1.2]
                          show r.width - r.width * sr ≤ 0
                          have hm : r.width * (1 - sr) ≤ 0 :=
                            mul_nonpos_of_nonpos_of_nonneg (le_of_lt hwid)
                              (by linarith [hr.1.2])
                          have he : r.width * (1 - sr) = r.width - r.width * sr := by ring
                          linarith
                | false =>
                    rcases hp with hp | hp
                    · rcases ihl lt rfl hb.1 hc.2.1 hr.2.1 p hp with hX | hX
                      · exact Or.inl hX
                      · rw [hc.1.1] at hX
                        exact Or.inr hX
                    · rcases ihr rt rfl hb.2 hc.2.2 hr.2.2 p hp with hX | hX
                      · exact Or.inl hX
                      · rw [hc.1.2] at hX
                        exact Or.inr hX

/-- Vertical bound: every collected rectangle either has nonpositive height
or lies within the vertical extent of the node's rectangle. -/
theorem BSPNode.collect_bound_y (g : ℚ) (hg : 0 ≤ g) (t : BSPNode) :
    biform t = true → consistent t = true → ratiosBounded t = true →
    ∀ p ∈ collectWindowRects g t,
      (p : ℕ × Rect).2.height ≤ 0 ∨
        (t.rect.y ≤ p.2.y ∧ p.2.y + p.2.height ≤ t.rect.y + t.rect.height) := by
  induction t using BSPNode.myInd with
  | h r sr hz w l r2 ihl ihr =>
    intro hb hc hr p hp
    cases w with
    | some wid =>
        simp only [collectWindowRects, List.mem_singleton] at hp
        subst hp
        right
        constructor
        · show r.y ≤ r.y + g / 2
          linarith
        · show r.y + g / 2 + (r.height - g) ≤ r.y + r.height
          linarith
    | none =>
        cases l with
        | none =>
            cases r2 with
            | none => simp [collectWindowRects] at hp
            | some rt => simp [biform] at hb
        | some lt =>
            cases r2 with
            | none => simp [biform] at hb
            | some rt =>
                simp only [biform, Bool.and_eq_true] at hb
                simp only [consistent, Bool.and_eq_true, beq_iff_eq] at hc
                simp only [ratiosBounded, Bool.and_eq_true, decide_eq_true_eq] at hr
                simp only [collectWindowRects, List.mem_append] at hp
                cases hz with
                | true =>
                    rcases hp with hp | hp
                    · rcases ihl lt rfl hb.1 hc.2.1 hr.2.1 p hp with hX | hX
                      · exact Or.inl hX
                      · rw [hc.1.1] at hX
                        exact Or.inr hX
                    · rcases ihr rt rfl hb.2 hc.2.2 hr.2.2 p hp with hX | hX
                      · exact Or.inl hX
                      · rw [hc.1.2] at hX
                        exact Or.inr hX
                | false =>
                    rcases hp with hp | hp
                    · rcases ihl lt rfl hb.1 hc.2.1 hr.2.1 p hp with hX | hX
                      · exact Or.inl hX
                      · rw [hc.1.1] at hX
                        have hX1 : r.y ≤ p.2.y := hX.1
                        have hX2 : p.2.y + p.2.height ≤ r.y + r.height * sr := hX.2
                        rcases le_or_lt 0 r.height with hhei | hhei
                        · right
                          refine ⟨hX1, ?_⟩
                          show p.2.y + p.2.height ≤ r.y + r.height
                          nlinarith [mul_le_mul_of_nonneg_left hr.1.2 hhei]
                        · left
                          apply collect_height_nonpos g hg lt hb.1 hc.2.1 hr.2.1 ?_ p hp
                          rw [hc.1.1]
                          show r.height * sr ≤ 0
                          exact mul_nonpos_of_nonpos_of_nonneg (le_of_lt hhei) hr.1.1
                    · rcases ihr rt rfl hb.2 hc.2.2 hr.2.2 p hp with hX | hX
                      · exact Or.inl hX
                      · rw [hc.1.2] at hX
                        have hX1 : r.y + r.height * sr ≤ p.2.y := hX.1
                        have hX2 : p.2.y + p.2.height
                            ≤ r.y + r.height * sr + (r.height - r.height * sr) := hX.2
                        rcases le_or_lt 0 r.height with hhei | hhei
                        · right
                          constructor
                          · show r.y ≤ p.2.y
                            nlinarith [mul_nonneg hhei hr.1.1]
                          · show p.2.y + p.2.height ≤ r.y + r.height
                            linarith
                        · left
                          apply collect_height_nonpos g hg rt hb.2 hc.2.2 hr.2.2 ?_ p hp
                          rw [hc.1.2]
                          show r.height - r.height * sr ≤ 0
                          have hm : r.height * (1 - sr) ≤ 0 :=
                            mul_nonpos_of_nonpos_of_nonneg (le_of_lt hhei)
                              (by linarith [hr.1.2])
                          have he : r.height * (1 - sr) = r.height - r.height * sr := by ring
                          linarith

/-- On a consistent both-or-neither tree with ratios in [0, 1], any two
collected rectangles have zero-area intersection (nonnegative gap). -/
theorem BSPNode.collect_pairwise (g : ℚ) (hg : 0 ≤ g) (t : BSPNode) :
    biform t = true → consistent t = true → ratiosBounded t = true →
    List.Pairwise (fun p q : ℕ × Rect => interArea p.2 q.2 = 0)
      (collectWindowRects g t) := by
  induction t using BSPNode.myInd with
  | h r sr hz w l r2 ihl ihr =>
    intro hb hc hr
    cases w with
    | some wid => exact List.pairwise_singleton _ _
    | none =>
        cases l with
        | none =>
            cases r2 with
            | none => exact List.Pairwise.nil
            | some rt => simp [biform] at hb
        | some lt =>
            cases r2 with
            | none => simp [biform] at hb
            | some rt =>
                simp only [biform, Bool.and_eq_true] at hb
                simp only [consistent, Bool.and_eq_true, beq_iff_eq] at hc
                simp only [ratiosBounded, Bool.and_eq_true, decide_eq_true_eq] at hr
                show List.Pairwise _ (collectWindowRects g lt ++ collectWindowRects g rt)
                rw [List.pairwise_append]
                refine ⟨ihl lt rfl hb.1 hc.2.1 hr.2.1, ihr rt rfl hb.2 hc.2.2 hr.2.2, ?_⟩
                intro p hp q hq
                cases hz with
                | true =>
                    apply interArea_eq_zero_of_x
                    apply interLen_eq_zero
                    rcases collect_bound_x g hg lt hb.1 hc.2.1 hr.2.1 p hp with hpb | hpb
                    · exact Or.inl hpb
                    · rcases collect_bound_x g hg rt hb.2 hc.2.2 hr.2.2 q hq with hqb | hqb
                      · exact Or.inr (Or.inl hqb)
                      · right; right; left
                        rw [hc.1.1] at hpb
                        rw [hc.1.2] at hqb
                        have h1 : p.2.x + p.2.width ≤ r.x + r.width * sr := hpb.2
                        have h2 : r.x + r.width * sr ≤ q.2.x := hqb.1
                        linarith
                | false =>
                    apply interArea_eq_zero_of_y
                    apply interLen_eq_zero
                    rcases collect_bound_y g hg lt hb.1 hc.2.1 hr.2.1 p hp with hpb | hpb
                    · exact Or.inl hpb
                    · rcases collect_bound_y g hg rt hb.2 hc.2.2 hr.2.2 q hq with hqb | hqb
                      · exact Or.inr (Or.inl hqb)
                      · right; right; left
                        rw [hc.1.1] at hpb
                        rw [hc.1.2] at hqb
                        have h1 : p.2.y + p.2.height ≤ r.y + r.height * sr := hpb.2
                        have h2 : r.y + r.height * sr ≤ q.2.y := hqb.1
                        linarith

/-- The synced BSP root of compute_bsp_layout is rectangle-consistent and
keeps its ratios in [0, 1] whenever the configured ratio is in [0, 1] and the
stored tree satisfies the invariants. -/
theorem bspRoot2_geom (mgr : LayoutManager) (w0 : Window) (rest : List Window)
    (screen : Rect)
    (h0 : 0 ≤ mgr.split_ratio) (h1 : mgr.split_ratio ≤ 1)
    (hinv : LayoutManager.treeInv mgr.bsp_root)
    (hrb : ∀ t, mgr.bsp_root = some t → BSPNode.ratiosBounded t = true) :
    BSPNode.consistent (LayoutManager.bspRoot2 mgr w0 rest screen) = true
    ∧ BSPNode.ratiosBounded (LayoutManager.bspRoot2 mgr w0 rest screen) = true := by
  have hleafC : BSPNode.consistent (BSPNode.newLeaf w0.id screen) = true := rfl
  have hleafR : BSPNode.ratiosBounded (BSPNode.newLeaf w0.id screen) = true := by
    show (decide ((0:ℚ) ≤ 1/2) && decide ((1/2:ℚ) ≤ 1)) = true
    rw [Bool.and_eq_true, decide_eq_true_eq, decide_eq_true_eq]
    constructor <;> norm_num
  have hfreshC := consistent_freshFold mgr.split_ratio rest
    (BSPNode.newLeaf w0.id screen) hleafC
  have hfreshR := ratiosBounded_freshFold mgr.split_ratio h0 h1 rest
    (BSPNode.newLeaf w0.id screen) hleafR
  cases hroot : mgr.bsp_root with
  | none =>
      have hr2 : LayoutManager.bspRoot2 mgr w0 rest screen
          = rest.foldl (fun t w => BSPNode.insertWindow w.id mgr.split_ratio t 0)
              (BSPNode.newLeaf w0.id screen) := by
        unfold LayoutManager.bspRoot2
        rw [hroot]
      rw [hr2]
      exact ⟨hfreshC, hfreshR⟩
  | some root =>
      rw [hroot] at hinv
      obtain ⟨hw, hb, hn⟩ := hinv
      have hrbroot := hrb root hroot
      have hrw : LayoutManager.bspSyncRemove ((w0 :: rest).map Window.id) root
          = (BSPNode.treeIds root).foldl
              (fun t wid => if wid ∈ (w0 :: rest).map Window.id then t
                else (BSPNode.removeWindow t wid).1) root := rfl
      obtain ⟨hsub, -, hwR, hbR⟩ :=
        bspRemoveFold_spec ((w0 :: rest).map Window.id) (BSPNode.treeIds root) root hw hb
      rw [← hrw] at hsub hwR hbR
      have hnR : (BSPNode.treeIds
          (LayoutManager.bspSyncRemove ((w0 :: rest).map Window.id) root)).Nodup :=
        hn.sublist hsub
      have hrbR : BSPNode.ratiosBounded
          (LayoutManager.bspSyncRemove ((w0 :: rest).map Window.id) root) = true := by
        rw [hrw]
        exact ratiosBounded_removeFold _ _ root hrbroot
      obtain ⟨hwI, hbI, -, -⟩ := bspSyncInsert_spec mgr.split_ratio (w0 :: rest)
        (LayoutManager.bspSyncRemove ((w0 :: rest).map Window.id) root) hwR hbR hnR
      have hrbI : BSPNode.ratiosBounded
          (LayoutManager.bspSyncInsert mgr.split_ratio (w0 :: rest)
            (LayoutManager.bspSyncRemove ((w0 :: rest).map Window.id) root)) = true :=
        ratiosBounded_syncInsert mgr.split_ratio h0 h1 (w0 :: rest) _ hrbR
      have hconU : BSPNode.consistent (BSPNode.updateRect screen
          (LayoutManager.bspSyncInsert mgr.split_ratio (w0 :: rest)
            (LayoutManager.bspSyncRemove ((w0 :: rest).map Window.id) root))) = true :=
        BSPNode.consistent_updateRect screen _ hbI
      have hrbU : BSPNode.ratiosBounded (BSPNode.updateRect screen
          (LayoutManager.bspSyncInsert mgr.split_ratio (w0 :: rest)
            (LayoutManager.bspSyncRemove ((w0 :: rest).map Window.id) root))) = true :=
        BSPNode.ratiosBounded_updateRect screen _ hrbI
      by_cases hcount : BSPNode.countWindows (BSPNode.updateRect screen
          (LayoutManager.bspSyncInsert mgr.split_ratio (w0 :: rest)
            (LayoutManager.bspSyncRemove ((w0 :: rest).map Window.id) root))) = 0
      · have hr2 : LayoutManager.bspRoot2 mgr w0 rest screen
            = rest.foldl (fun t w => BSPNode.insertWindow w.id mgr.split_ratio t 0)
                (BSPNode.newLeaf w0.id screen) := by
          unfold LayoutManager.bspRoot2
          rw [hroot]
          exact if_pos hcount
        rw [hr2]
        exact ⟨hfreshC, hfreshR⟩
      · have hr2 : LayoutManager.bspRoot2 mgr w0 rest screen
            = BSPNode.updateRect screen
                (LayoutManager.bspSyncInsert mgr.split_ratio (w0 :: rest)
                  (LayoutManager.bspSyncRemove ((w0 :: rest).map Window.id) root)) := by
          unfold LayoutManager.bspRoot2
          rw [hroot]
          exact if_neg hcount
        rw [hr2]
        exact ⟨hconU, hrbU⟩

/-! ## Claim C5 -/

/-- C5 — Non-overlap: for every layout mode in {BSP, Stack, Grid, Column,
Spiral}, every window list with distinct ids, every screen rectangle and
every gap ≥ 0, any two rectangles in the mapping returned by compute_layout
have zero-area intersection (for BSP, with the configured split ratio in
[0, 1] and the manager's stored tree satisfying its invariants). -/
theorem c5_non_overlap (mgr : LayoutManager) (windows : List Window) (screen : Rect)
    (gap : ℚ)
    (hmode1 : mgr.current_layout ≠ .float) (hmode2 : mgr.current_layout ≠ .monocle)
    (hg : 0 ≤ gap)
    (hr0 : 0 ≤ mgr.split_ratio) (hr1 : mgr.split_ratio ≤ 1)
    (hinv : LayoutManager.treeInv mgr.bsp_root)
    (hrb : ∀ t, mgr.bsp_root = some t → BSPNode.ratiosBounded t = true)
    (hnodup : (windows.map Window.id).Nodup) :
    List.Pairwise (fun p q : ℕ × Rect => interArea p.2 q.2 = 0)
      (mgr.computeLayout windows screen gap).2 := by
  cases hcl : mgr.current_layout with
  | float => exact absurd hcl hmode1
  | monocle => exact absurd hcl hmode2
  | stack =>
      have hred : (mgr.computeLayout windows screen gap).2
          = LayoutManager.computeStackLayout mgr.split_ratio windows screen gap := by
        unfold LayoutManager.computeLayout
        rw [hcl]
      rw [hred]
      exact stack_pairwise mgr.split_ratio windows screen gap hg
  | spiral =>
      have hred : (mgr.computeLayout windows screen gap).2
          = LayoutManager.computeSpiralLayout mgr.split_ratio windows screen gap := by
        unfold LayoutManager.computeLayout
        rw [hcl]
      rw [hred]
      exact spiral_pairwise mgr.split_ratio windows screen gap hg
  | grid =>
      have hred : (mgr.computeLayout windows screen gap).2
          = LayoutManager.computeGridLayout windows screen gap := by
        unfold LayoutManager.computeLayout
        rw [hcl]
      rw [hred]
      exact grid_pairwise windows screen gap hg
  | column =>
      have hred : (mgr.computeLayout windows screen gap).2
          = LayoutManager.computeColumnLayout windows screen gap := by
        unfold LayoutManager.computeLayout
        rw [hcl]
      rw [hred]
      exact column_pairwise windows screen gap hg
  | bsp =>
      cases windows with
      | nil =>
          have hred : (mgr.computeLayout [] screen gap).2 = ([] : List (ℕ × Rect)) := by
            unfold LayoutManager.computeLayout
            rw [hcl]
            rfl
          rw [hred]
          exact List.Pairwise.nil
      | cons w0 rest =>
          have hred : (mgr.computeLayout (w0 :: rest) screen gap).2
              = BSPNode.collectWindowRects gap
                  (LayoutManager.bspRoot2 mgr w0 rest screen) := by
            unfold LayoutManager.computeLayout
            rw [hcl]
            rfl
          rw [hred]
          obtain ⟨-, hbU, -, -⟩ := bspRoot2_spec mgr w0 rest screen hinv hnodup
          obtain ⟨hcU, hrU⟩ := bspRoot2_geom mgr w0 rest screen hr0 hr1 hinv hrb
          exact BSPNode.collect_pairwise gap hg _ hbU hcU hrU

/-- Witness for C5 at a fresh BSP manager over two windows with gap 10. -/
theorem c5_non_overlap_witness :
    List.Pairwise (fun p q : ℕ × Rect => interArea p.2 q.2 = 0)
      (LayoutManager.computeLayout c5Mgr c5Windows ⟨0, 0, 1000, 800⟩ 10).2 :=
  c5_non_overlap c5Mgr c5Windows ⟨0, 0, 1000, 800⟩ 10
    (by simp [c5Mgr]) (by simp [c5Mgr]) (by norm_num)
    (by norm_num [c5Mgr]) (by norm_num [c5Mgr]) trivial
    (by intro t ht; exact absurd ht (by simp [c5Mgr]))
    (by simp [c5Windows])

end Skew
